import Mathlib

/-!
# Memory.h: smart handles over an out-of-band reference table

A shallow embedding of `src/Memory.h` and the properties of its three handle kinds.  Unless
said otherwise the single-threaded configuration is meant (`MEMORY_MULTITHREAD_SAFE`
undefined); the interlocked release is modelled separately in `Interlocked`.

Modelling choices.

* Addresses (`T*`, `void*`) are natural numbers, `0` is `nullptr`.
* `RefCount = unsigned long` is a 64-bit unsigned integer (LP64); the arithmetic on it is
  written with an explicit `% RefCountModulus`.
* The process-wide table `std::unordered_map<void*, RefCount>` is a function
  `Addr → Option Nat` (`none`: no entry).
* A `SharedMemoryHandle` object is a slot of `State.shared`: `some d` is a live object whose
  member `Data` is `d`, `none` is an object whose destructor has run.  The C++ `this` is the
  index of the slot.
* The member functions of `UniqueMemoryHandle` and `WeakMemoryHandle` act on the value of the
  member `Data`; exclusive handle objects get slots of their own in `UniqueState`, where
  programs over several of them are run.
* The value type `T`, its constructor and its destructor are external.  `harz_new` is given
  the block returned by the allocator, `harz_delete` records the call in `State.deleted`
  (one entry per finalizer run) and gives the block back.
* `ASSERT` and `ERROR` reports are counted in `State.asserts` and execution continues (custom
  hook or `NDEBUG`); `GetReference`, whose only effect is the assertion, returns an `Option`.
* Undefined behaviour is a missing result (`none`) or a state of its own (`Pc.Undefined`).
-/

namespace harz

/-- An address (`T*` or `void*`); `0` is `nullptr`. -/
abbrev Addr := Nat

/-- Number of values of `RefCount = unsigned long` (64 bits). -/
def RefCountModulus : Nat := 18446744073709551616

/-- The table type `RefMapType = std::unordered_map<void*, RefCount>`. -/
abbrev RefMapType := Addr → Option Nat

/-- `RefMap.find(k)`: `none` stands for `RefMap.end()`. -/
def RefMapType.find (m : RefMapType) (k : Addr) : Option Nat := m k

/-- `RefMap.insert({k, v})`: an existing entry is left alone. -/
def RefMapType.insert (m : RefMapType) (k : Addr) (v : Nat) : RefMapType :=
  fun x => if x = k then (match m k with
    | some c => some c
    | none => some v) else m x

/-- `RefMap.erase(k)`. -/
def RefMapType.erase (m : RefMapType) (k : Addr) : RefMapType :=
  fun x => if x = k then none else m x

/-- Assignment through the reference `RefCounterToData->second` of the entry of `k`. -/
def RefMapType.assign (m : RefMapType) (k : Addr) (v : Nat) : RefMapType :=
  fun x => if x = k then some v else m x

/-- The state of the process that the handles act on. -/
structure State where
  /-- The table returned by `getRefMap()`. -/
  RefMap : RefMapType
  /-- Addresses of the values built by `harz_new` and not yet given to `harz_delete`. -/
  live : List Addr
  /-- Log of the finalizer runs: `harz_delete` appends its (non-null) argument. -/
  deleted : List Addr
  /-- Number of failed `ASSERT`s so far. -/
  asserts : Nat
  /-- The `SharedMemoryHandle` objects: `some d` is a live object with `Data == d`. -/
  shared : List (Option Addr)

/-- The start of the process: empty table, no value, no handle. -/
def State.init : State :=
  { RefMap := fun _ => none, live := [], deleted := [], asserts := 0, shared := [] }

/-- `harz_delete(address)`: runs the finalizer of the value and frees its block; does nothing
on `nullptr`. -/
def harz_delete (s : State) (address : Addr) : State :=
  if address ≠ 0 then
    { s with deleted := s.deleted ++ [address], live := s.live.filter (fun x => x ≠ address) }
  else s

/-- `harz_new<T>(args...)`, where `ptr` is what `MallocAllocator::Allocate(sizeof(T))`
returned: the value is constructed in place when `ptr` is not null. -/
def harz_new (s : State) (ptr : Addr) : State × Addr :=
  if ptr ≠ 0 then ({ s with live := ptr :: s.live }, ptr) else (s, 0)

/-- Number of live `SharedMemoryHandle` objects whose `Data` is `a`. -/
def holders (a : Addr) : List (Option Addr) → Nat
  | [] => 0
  | x :: xs => (if x = some a then 1 else 0) + holders a xs

/-- Number of live `SharedMemoryHandle` objects. -/
def liveHandles : List (Option Addr) → Nat
  | [] => 0
  | x :: xs => (if x.isSome then 1 else 0) + liveHandles xs

/-- How many handle objects fit in memory: a handle is one pointer (8 bytes) and the address
space has `2 ^ 64` bytes, so there are never more than `2 ^ 61` of them at a time. -/
def handleCapacity : Nat := 2305843009213693952

namespace UniqueMemoryHandle

/-- `UniqueMemoryHandle::IsValid`. -/
def IsValid (Data : Addr) : Bool := decide (Data ≠ 0)

/-- `UniqueMemoryHandle::RetrieveResourse`: the returned address and the new `Data`. -/
def RetrieveResourse (Data : Addr) : Addr × Addr :=
  if IsValid Data = false then (0, Data) else (Data, 0)

/-- `UniqueMemoryHandle::ReleaseResourseChecked`: the new state and the new `Data`. -/
def ReleaseResourseChecked (s : State) (Data : Addr) : State × Addr :=
  if Data = 0 then (s, Data) else (harz_delete s Data, 0)

/-- `UniqueMemoryHandle::Release`. -/
def Release (s : State) (Data : Addr) : State × Addr := ReleaseResourseChecked s Data

/-- `UniqueMemoryHandle::AcquireDataToHandle`: the new state and the new `Data`. -/
def AcquireDataToHandle (s : State) (Data DataToHandle : Addr) : State × Addr :=
  if DataToHandle = 0 then (s, Data)
  else if Data = DataToHandle then (s, Data)
  else ((Release s Data).1, DataToHandle)

/-- `UniqueMemoryHandle(T* DataToHandle)`; the member starts as `T* Data = nullptr`. -/
def ctor_raw (s : State) (DataToHandle : Addr) : State × Addr :=
  AcquireDataToHandle s 0 DataToHandle

/-- `UniqueMemoryHandle::Create(args...)`, where `ptr` is the block the allocator returns. -/
def Create (s : State) (ptr : Addr) : State × Addr :=
  ctor_raw (harz_new s ptr).1 (harz_new s ptr).2

/-- `UniqueMemoryHandle(UniqueMemoryHandle&&)` and `UniqueMemoryHandle(UniqueMemoryHandle&)`:
the new state, the `Data` of the new handle, and the `Data` of `OtherHandle` afterwards. -/
def ctor_move (s : State) (OtherData : Addr) : State × Addr × Addr :=
  ((AcquireDataToHandle s 0 (RetrieveResourse OtherData).1).1,
    (AcquireDataToHandle s 0 (RetrieveResourse OtherData).1).2,
    (RetrieveResourse OtherData).2)

/-- `operator=(UniqueMemoryHandle&&)` on two distinct objects: the new state, the `Data` of
`this`, and the `Data` of `OtherHandle` afterwards. -/
def assign_move (s : State) (Data OtherData : Addr) : State × Addr × Addr :=
  let r := if IsValid Data then Release s Data else (s, Data)
  ((AcquireDataToHandle r.1 r.2 (RetrieveResourse OtherData).1).1,
    (AcquireDataToHandle r.1 r.2 (RetrieveResourse OtherData).1).2,
    (RetrieveResourse OtherData).2)

/-- `~UniqueMemoryHandle()`. -/
def dtor (s : State) (Data : Addr) : State :=
  if IsValid Data then (Release s Data).1 else s

/-- `UniqueMemoryHandle::ResetNew(args...)`, where `ptr` is the block the allocator returns. -/
def ResetNew (s : State) (Data : Addr) (ptr : Addr) : State × Addr :=
  AcquireDataToHandle (harz_new s ptr).1 Data (harz_new s ptr).2

/-- `UniqueMemoryHandle::Reset(T* DataToHandle)`. -/
def Reset (s : State) (Data DataToHandle : Addr) : State × Addr :=
  if Data = DataToHandle then (s, Data)
  else if DataToHandle = 0 then Release s Data
  else AcquireDataToHandle s Data DataToHandle

/-- `UniqueMemoryHandle::Reset(UniqueMemoryHandle<T> OtherHandle)`: the parameter
`OtherHandle` is built from the argument (which it empties) and destroyed when the call
returns; `ERROR` is counted in `State.asserts`.  Returns the new state, the `Data` of `this`
and the `Data` of the argument afterwards. -/
def Reset_handle (s : State) (Data ArgumentData : Addr) : State × Addr × Addr :=
  let s0 := (ctor_move s ArgumentData).1
  let OtherHandle := (ctor_move s ArgumentData).2.1
  let Argument := (ctor_move s ArgumentData).2.2
  if Data = OtherHandle then
    (dtor { s0 with asserts := s0.asserts + 1 } OtherHandle, Data, Argument)
  else if IsValid OtherHandle = false then
    (dtor (Release s0 Data).1 OtherHandle, (Release s0 Data).2, Argument)
  else
    (dtor (AcquireDataToHandle s0 Data (RetrieveResourse OtherHandle).1).1
        (RetrieveResourse OtherHandle).2,
      (AcquireDataToHandle s0 Data (RetrieveResourse OtherHandle).1).2, Argument)

end UniqueMemoryHandle

/-- `detailMemoryHandleImplementation::zero_memory(block, size)`, that is
`memset(block, 0, size)`: `none` when the behaviour is undefined, which is the case for a null
`block` (the pointer given to `memset` must point to an object). -/
def detailMemoryHandleImplementation.zero_memory (block : Addr) (_size : Nat) : Option Unit :=
  if block = 0 then none else some ()

/-- `MallocAllocator::Allocate(allocationsize)`, where `mallocResult` is what
`malloc(allocationsize)` returned (`0` when there is no memory): the block is zeroed, then
returned.  `none`: undefined behaviour. -/
def MallocAllocator.Allocate (mallocResult : Addr) (allocationsize : Nat) : Option Addr :=
  match detailMemoryHandleImplementation.zero_memory mallocResult allocationsize with
  | some _ => some mallocResult
  | none => none

/-- `MallocAllocator::Deallocate(allocation)`: whether a block was freed. -/
def MallocAllocator.Deallocate (allocation : Addr) : Bool := decide (allocation ≠ 0)

namespace SharedMemoryHandle

/-- `SharedMemoryHandle::Get`: the member `Data` of the object `this` (null for a slot that
holds no live object). -/
def Get (s : State) (this : Nat) : Addr :=
  match s.shared[this]? with
  | some (some d) => d
  | _ => 0

/-- The assignment `Data = d` in the object `this`. -/
def setData (s : State) (this : Nat) (d : Addr) : State :=
  { s with shared := s.shared.set this (some d) }

/-- Storage for a new handle object, which gets the index `s.shared.length`; its member starts
as `T* Data = nullptr`. -/
def construct (s : State) : State :=
  { s with shared := s.shared ++ [some 0] }

/-- `SharedMemoryHandle::IsValid`. -/
def IsValid (s : State) (this : Nat) : Bool :=
  decide (Get s this ≠ 0) && (RefMapType.find s.RefMap (Get s this)).isSome

/-- `SharedMemoryHandle::AcquireDataToHandle`. -/
def AcquireDataToHandle (s : State) (this : Nat) (DataToHandle : Addr) : State :=
  if DataToHandle = 0 then s
  else if Get s this = DataToHandle then s
  else
    match RefMapType.find s.RefMap DataToHandle with
    | some c =>
      setData { s with RefMap := RefMapType.assign s.RefMap DataToHandle ((c + 1) % RefCountModulus) }
        this DataToHandle
    | none =>
      setData { s with RefMap := RefMapType.insert s.RefMap DataToHandle 1 } this DataToHandle

/-- `SharedMemoryHandle::ReleaseResourseChecked`. -/
def ReleaseResourseChecked (s : State) (this : Nat) : State :=
  if Get s this ≠ 0 then
    match RefMapType.find s.RefMap (Get s this) with
    | none => setData { s with asserts := s.asserts + 1 } this 0
    | some c =>
      let s1 : State :=
        { s with RefMap := RefMapType.assign s.RefMap (Get s this)
                             ((c + (RefCountModulus - 1)) % RefCountModulus) }
      if (c + (RefCountModulus - 1)) % RefCountModulus < 1 then
        setData (harz_delete { s1 with RefMap := RefMapType.erase s1.RefMap (Get s this) }
          (Get s this)) this 0
      else setData s1 this 0
  else setData s this 0

/-- `SharedMemoryHandle::Release`. -/
def Release (s : State) (this : Nat) : State := ReleaseResourseChecked s this

/-- `SharedMemoryHandle(T* DataToHandle)`: the new state and the new object. -/
def ctor_raw (s : State) (DataToHandle : Addr) : State × Nat :=
  (AcquireDataToHandle (construct s) s.shared.length DataToHandle, s.shared.length)

/-- `SharedMemoryHandle(const SharedMemoryHandle&)` and `SharedMemoryHandle(SharedMemoryHandle&)`. -/
def ctor_copy (s : State) (OtherHandle : Nat) : State × Nat :=
  (AcquireDataToHandle (construct s) s.shared.length (Get s OtherHandle), s.shared.length)

/-- `SharedMemoryHandle(SharedMemoryHandle&&)`. -/
def ctor_move (s : State) (OtherHandle : Nat) : State × Nat :=
  (Release (AcquireDataToHandle (construct s) s.shared.length (Get s OtherHandle)) OtherHandle,
    s.shared.length)

/-- `SharedMemoryHandle(UniqueMemoryHandle<T>&&)`, the promotion: the new state, the new
object, and the `Data` of the exclusive handle afterwards. -/
def ctor_unique (s : State) (OtherUniqueData : Addr) : State × Nat × Addr :=
  (AcquireDataToHandle (construct s) s.shared.length
      (UniqueMemoryHandle.RetrieveResourse OtherUniqueData).1,
    s.shared.length, (UniqueMemoryHandle.RetrieveResourse OtherUniqueData).2)

/-- `SharedMemoryHandle::Create(args...)`, where `ptr` is the block the allocator returns. -/
def Create (s : State) (ptr : Addr) : State × Nat :=
  ctor_raw (harz_new s ptr).1 (harz_new s ptr).2

/-- `operator=(const SharedMemoryHandle&)`. -/
def assign_copy (s : State) (this OtherHandle : Nat) : State :=
  if this ≠ OtherHandle then
    let s1 := if IsValid s this then Release s this else s
    AcquireDataToHandle s1 this (Get s1 OtherHandle)
  else s

/-- `operator=(SharedMemoryHandle&&)`. -/
def assign_move (s : State) (this OtherHandle : Nat) : State :=
  if this ≠ OtherHandle then
    let s1 := if IsValid s this then Release s this else s
    Release (AcquireDataToHandle s1 this (Get s1 OtherHandle)) OtherHandle
  else s

/-- `~SharedMemoryHandle()`; afterwards the slot holds no object. -/
def dtor (s : State) (this : Nat) : State :=
  let s1 := if IsValid s this then Release s this else s
  { s1 with shared := s1.shared.set this none }

/-- `SharedMemoryHandle::Reset(T* DataToHandle)`. -/
def Reset (s : State) (this : Nat) (DataToHandle : Addr) : State :=
  if Get s this = DataToHandle then s
  else
    let s1 := if IsValid s this then Release s this else s
    AcquireDataToHandle s1 this DataToHandle

/-- `SharedMemoryHandle::Reset(SharedMemoryHandle<T> OtherHandle)` called on an lvalue: the
parameter is a copy of the argument, destroyed when the call returns. -/
def Reset_handle (s : State) (this Argument : Nat) : State :=
  let OtherHandle := (ctor_copy s Argument).2
  let s0 := (ctor_copy s Argument).1
  if Get s0 this = Get s0 OtherHandle then dtor s0 OtherHandle
  else
    let s1 := if IsValid s0 this then Release s0 this else s0
    dtor (AcquireDataToHandle s1 this (Get s1 OtherHandle)) OtherHandle

/-- `SharedMemoryHandle::GetWeak`: `return { Data };` list-initializes the `WeakMemoryHandle`
through `WeakMemoryHandle(const SharedMemoryHandle<T>&)`, the only constructor that accepts
a `T*` (by the converting constructor `SharedMemoryHandle(T*)`), so a temporary shared handle
on `Data` lives for the duration of the call.  Returns the new state and the `Data` of the
weak handle. -/
def GetWeak (s : State) (this : Nat) : State × Addr :=
  let tmp := (ctor_raw s (Get s this)).2
  let s1 := (ctor_raw s (Get s this)).1
  (dtor s1 tmp, Get s1 tmp)

end SharedMemoryHandle

namespace WeakMemoryHandle

/-- `WeakMemoryHandle::CheckRefCount`. -/
def CheckRefCount (s : State) (Ptr : Addr) : Bool :=
  match RefMapType.find s.RefMap Ptr with
  | some c => decide (c > 0)
  | none => false

/-- `WeakMemoryHandle::IsValid`. -/
def IsValid (s : State) (Data : Addr) : Bool :=
  decide (Data ≠ 0) && CheckRefCount s Data

/-- `WeakMemoryHandle::GetReference`: `none` when `ASSERT(IsValid())` fails, otherwise the
reference `*Data`, i.e. the value at the address `Data`. -/
def GetReference (s : State) (Data : Addr) : Option Addr :=
  if IsValid s Data then some Data else none

end WeakMemoryHandle

/-- The operations of a program on its shared handles.  Handle objects are named by their
slot; `Promote` carries the `Data` of the exclusive handle that is promoted. -/
inductive Op where
  | Create (ptr : Addr)
  | FromRaw (DataToHandle : Addr)
  | Copy (OtherHandle : Nat)
  | CopyAssign (this OtherHandle : Nat)
  | Move (OtherHandle : Nat)
  | MoveAssign (this OtherHandle : Nat)
  | Promote (OtherUniqueData : Addr)
  | Reset (this : Nat) (DataToHandle : Addr)
  | ResetHandle (this Argument : Nat)
  | Release (this : Nat)
  | Destroy (this : Nat)
  | GetWeak (this : Nat)

/-- The slot `h` holds a live handle object. -/
def isLive (s : State) (h : Nat) : Bool :=
  match s.shared[h]? with
  | some (some _) => true
  | _ => false

/-- There is room for one more handle object. -/
def canConstruct (s : State) : Bool := decide (liveHandles s.shared < handleCapacity)

/-- One operation.  `none`: the program cannot perform it (it names an object that is not
live, there is no room for a new handle object, or the allocator would have to return the
address of a value that is still allocated). -/
def step (s : State) : Op → Option State
  | .Create ptr =>
    if canConstruct s ∧ (ptr = 0 ∨ ptr ∉ s.live) then some (SharedMemoryHandle.Create s ptr).1
    else none
  | .FromRaw p => if canConstruct s then some (SharedMemoryHandle.ctor_raw s p).1 else none
  | .Copy o =>
    if canConstruct s ∧ isLive s o then some (SharedMemoryHandle.ctor_copy s o).1 else none
  | .CopyAssign h o =>
    if isLive s h ∧ isLive s o then some (SharedMemoryHandle.assign_copy s h o) else none
  | .Move o =>
    if canConstruct s ∧ isLive s o then some (SharedMemoryHandle.ctor_move s o).1 else none
  | .MoveAssign h o =>
    if isLive s h ∧ isLive s o then some (SharedMemoryHandle.assign_move s h o) else none
  | .Promote u => if canConstruct s then some (SharedMemoryHandle.ctor_unique s u).1 else none
  | .Reset h p => if isLive s h then some (SharedMemoryHandle.Reset s h p) else none
  | .ResetHandle h o =>
    if canConstruct s ∧ isLive s h ∧ isLive s o then some (SharedMemoryHandle.Reset_handle s h o)
    else none
  | .Release h => if isLive s h then some (SharedMemoryHandle.Release s h) else none
  | .Destroy h => if isLive s h then some (SharedMemoryHandle.dtor s h) else none
  | .GetWeak h =>
    if canConstruct s ∧ isLive s h then some (SharedMemoryHandle.GetWeak s h).1 else none

/-- A sequence of operations, from left to right. -/
def run (s : State) : List Op → Option State
  | [] => some s
  | op :: ops =>
    match step s op with
    | some s1 => run s1 ops
    | none => none

/-- The operation hands the address `a` to a shared handle from outside the shared handles:
a value created at `a`, a handle built from or reset to the raw address `a`, or the promotion
of an exclusive handle that owns `a`. -/
def Op.brings (a : Addr) : Op → Bool
  | .Create ptr => decide (ptr = a)
  | .FromRaw DataToHandle => decide (DataToHandle = a)
  | .Promote OtherUniqueData => decide (OtherUniqueData = a)
  | .Reset _ DataToHandle => decide (DataToHandle = a)
  | _ => false

/-- The exclusive handle objects of a program, next to the process state: `some d` is a live
`UniqueMemoryHandle` object with `Data == d`, `none` an object whose destructor has run. -/
structure UniqueState where
  mem : State
  unique : List (Option Addr)

/-- The start of the process: no exclusive handle. -/
def UniqueState.init : UniqueState := { mem := State.init, unique := [] }

/-- `UniqueMemoryHandle::Get` of the object in slot `h` of a list of handle objects. -/
def slotData (l : List (Option Addr)) (h : Nat) : Addr :=
  match l[h]? with
  | some (some d) => d
  | _ => 0

/-- The slot `h` of the list holds a live handle object. -/
def slotLive (l : List (Option Addr)) (h : Nat) : Bool :=
  match l[h]? with
  | some (some _) => true
  | _ => false

/-- The operations of a program on its exclusive handles that take no raw address from
outside: `Create`, the two transfer constructors, move assignment, `Reset` from a handle,
`ResetNew`, `Release` and destruction. -/
inductive UniqueOp where
  | Create (ptr : Addr)
  | Move (OtherHandle : Nat)
  | MoveLvalue (OtherHandle : Nat)
  | MoveAssign (this OtherHandle : Nat)
  | ResetHandle (this Argument : Nat)
  | ResetNew (this : Nat) (ptr : Addr)
  | Release (this : Nat)
  | Destroy (this : Nat)

/-- One operation on the exclusive handles.  `none`: the program cannot perform it (it names
an object that is not live, or the allocator would have to return the address of a value
that is still allocated). -/
def stepUnique (u : UniqueState) : UniqueOp → Option UniqueState
  | .Create ptr =>
    if ptr = 0 ∨ ptr ∉ u.mem.live then
      some { mem := (UniqueMemoryHandle.Create u.mem ptr).1,
             unique := u.unique ++ [some (UniqueMemoryHandle.Create u.mem ptr).2] }
    else none
  | .Move o =>
    if slotLive u.unique o then
      some { mem := (UniqueMemoryHandle.ctor_move u.mem (slotData u.unique o)).1,
             unique := u.unique.set o
                 (some (UniqueMemoryHandle.ctor_move u.mem (slotData u.unique o)).2.2)
               ++ [some (UniqueMemoryHandle.ctor_move u.mem (slotData u.unique o)).2.1] }
    else none
  | .MoveLvalue o =>
    if slotLive u.unique o then
      some { mem := (UniqueMemoryHandle.ctor_move u.mem (slotData u.unique o)).1,
             unique := u.unique.set o
                 (some (UniqueMemoryHandle.ctor_move u.mem (slotData u.unique o)).2.2)
               ++ [some (UniqueMemoryHandle.ctor_move u.mem (slotData u.unique o)).2.1] }
    else none
  | .MoveAssign h o =>
    if slotLive u.unique h ∧ slotLive u.unique o then
      if h ≠ o then
        some { mem := (UniqueMemoryHandle.assign_move u.mem (slotData u.unique h)
                          (slotData u.unique o)).1,
               unique := (u.unique.set o
                   (some (UniqueMemoryHandle.assign_move u.mem (slotData u.unique h)
                          (slotData u.unique o)).2.2)).set h
                   (some (UniqueMemoryHandle.assign_move u.mem (slotData u.unique h)
                          (slotData u.unique o)).2.1) }
      else some u
    else none
  | .ResetHandle h o =>
    if slotLive u.unique h ∧ slotLive u.unique o then
      -- the parameter is built first and empties the argument, then the body reads `Data`
      let moved := u.unique.set o
        (some (UniqueMemoryHandle.RetrieveResourse (slotData u.unique o)).2)
      some { mem := (UniqueMemoryHandle.Reset_handle u.mem (slotData moved h)
                        (slotData u.unique o)).1,
             unique := moved.set h
               (some (UniqueMemoryHandle.Reset_handle u.mem (slotData moved h)
                        (slotData u.unique o)).2.1) }
    else none
  | .ResetNew h ptr =>
    if slotLive u.unique h ∧ (ptr = 0 ∨ ptr ∉ u.mem.live) then
      some { mem := (UniqueMemoryHandle.ResetNew u.mem (slotData u.unique h) ptr).1,
             unique := u.unique.set h
               (some (UniqueMemoryHandle.ResetNew u.mem (slotData u.unique h) ptr).2) }
    else none
  | .Release h =>
    if slotLive u.unique h then
      some { mem := (UniqueMemoryHandle.Release u.mem (slotData u.unique h)).1,
             unique := u.unique.set h
               (some (UniqueMemoryHandle.Release u.mem (slotData u.unique h)).2) }
    else none
  | .Destroy h =>
    if slotLive u.unique h then
      some { mem := UniqueMemoryHandle.dtor u.mem (slotData u.unique h),
             unique := u.unique.set h none }
    else none

/-- A sequence of operations on the exclusive handles, from left to right. -/
def runUnique (u : UniqueState) : List UniqueOp → Option UniqueState
  | [] => some u
  | op :: ops =>
    match stepUnique u op with
    | some u1 => runUnique u1 ops
    | none => none

/-- Exclusive ownership: a non-null address is stored by at most one live handle of the
list, and then it is the address of an allocated value. -/
def Exclusive (l : List (Option Addr)) (live : List Addr) : Prop :=
  ∀ a, a ≠ 0 → holders a l ≤ 1 ∧ (1 ≤ holders a l → a ∈ live)

namespace Interlocked

/-- Where a thread stands inside `SharedMemoryHandle::ReleaseResourseChecked` in the
`MEMORY_MULTITHREAD_SAFE` configuration: each value names the next step, and every step that
touches the table runs under the one mutex, for that step only.
`Find`: the block with `REFERENCE_INTERLOCK_GUARD` that looks the entry up and sets `Ref`;
`Decrement`: `ReferenceDecrementInterlocked(*Ref)`;
`ReadCount`: `ReferenceGetValueInterlocked(*Ref) < 1`;
`Erase`: `RefMapEraseInterlocked(Data)`;
`Delete`: `harz_delete(Data)` (no lock);
`Clear`: `Data = nullptr`;
`Undefined`: `*Ref` was used after the entry it points into had been erased. -/
inductive Pc where
  | Find
  | Decrement
  | ReadCount
  | Erase
  | Delete
  | Clear
  | Done
  | Undefined
  deriving DecidableEq

/-- A thread that is releasing a shared handle: the member `Data` of the handle, the local
`unsigned long* Ref` (the entry it points into, named by its key), the next step, and whether
the thread has read a count below 1. -/
structure Releaser where
  Data : Addr
  Ref : Option Addr
  pc : Pc
  sawBelowOne : Bool

/-- A thread that enters `Release()` on a handle that stores `Data`. -/
def Releaser.start (Data : Addr) : Releaser :=
  { Data := Data, Ref := none, pc := Pc.Find, sawBelowOne := false }

/-- The next step of one thread. -/
def stepReleaser (s : State) (r : Releaser) : State × Releaser :=
  match r.pc with
  | .Find =>
    if r.Data ≠ 0 then
      match RefMapType.find s.RefMap r.Data with
      | some _ => (s, { r with Ref := some r.Data, pc := Pc.Decrement })
      | none => ({ s with asserts := s.asserts + 1 }, { r with pc := Pc.Clear })
    else (s, { r with pc := Pc.Clear })
  | .Decrement =>
    match r.Ref with
    | some k =>
      match RefMapType.find s.RefMap k with
      | some c =>
        ({ s with RefMap := RefMapType.assign s.RefMap k
                              ((c + (RefCountModulus - 1)) % RefCountModulus) },
          { r with pc := Pc.ReadCount })
      | none => (s, { r with pc := Pc.Undefined })
    | none => (s, { r with pc := Pc.Clear })
  | .ReadCount =>
    match r.Ref with
    | some k =>
      match RefMapType.find s.RefMap k with
      | some c =>
        if c < 1 then (s, { r with pc := Pc.Erase, sawBelowOne := true })
        else (s, { r with pc := Pc.Clear })
      | none => (s, { r with pc := Pc.Undefined })
    | none => (s, { r with pc := Pc.Clear })
  | .Erase => ({ s with RefMap := RefMapType.erase s.RefMap r.Data }, { r with pc := Pc.Delete })
  | .Delete => (harz_delete s r.Data, { r with pc := Pc.Clear })
  | .Clear => (s, { r with Data := 0, pc := Pc.Done })
  | .Done => (s, r)
  | .Undefined => (s, r)

/-- Two threads and the process state; the scheduler lets the first (`false`) or the second
(`true`) thread take its next step. -/
def stepThread (w : State × Releaser × Releaser) (second : Bool) : State × Releaser × Releaser :=
  if second then ((stepReleaser w.1 w.2.2).1, w.2.1, (stepReleaser w.1 w.2.2).2)
  else ((stepReleaser w.1 w.2.1).1, (stepReleaser w.1 w.2.1).2, w.2.2)

/-- An interleaving of the steps of the two threads. -/
def runSchedule (w : State × Releaser × Releaser) (schedule : List Bool) :
    State × Releaser × Releaser :=
  schedule.foldl stepThread w

end Interlocked

/-- The table agrees with the handles: an address has an entry exactly when some live shared
handle stores it, and the count is the number of those handles. -/
def TableMatches (s : State) : Prop :=
  ∀ a, s.RefMap a = if a = 0 ∨ holders a s.shared = 0 then none else some (holders a s.shared)

/-- The invariant of the shared handles. -/
def Inv (s : State) : Prop :=
  TableMatches s ∧ liveHandles s.shared ≤ handleCapacity

/-! ## Lists of handle slots -/

theorem holders_append (a : Addr) (l₁ l₂ : List (Option Addr)) :
    holders a (l₁ ++ l₂) = holders a l₁ + holders a l₂ := by
  induction l₁ with
  | nil => simp [holders]
  | cons x xs ih => simp [holders, ih]; omega

theorem liveHandles_append (l₁ l₂ : List (Option Addr)) :
    liveHandles (l₁ ++ l₂) = liveHandles l₁ + liveHandles l₂ := by
  induction l₁ with
  | nil => simp [liveHandles]
  | cons x xs ih => simp [liveHandles, ih]; omega

theorem holders_set (a : Addr) (l : List (Option Addr)) (i : Nat) (x y : Option Addr)
    (h : l[i]? = some x) :
    holders a (l.set i y) + (if x = some a then 1 else 0)
      = holders a l + (if y = some a then 1 else 0) := by
  induction l generalizing i with
  | nil => simp at h
  | cons z zs ih =>
    cases i with
    | zero =>
      simp at h
      subst h
      simp [holders]; omega
    | succ j =>
      simp at h
      have := ih j h
      simp [holders]; omega

theorem liveHandles_set (l : List (Option Addr)) (i : Nat) (x y : Option Addr)
    (h : l[i]? = some x) :
    liveHandles (l.set i y) + (if x.isSome then 1 else 0)
      = liveHandles l + (if y.isSome then 1 else 0) := by
  induction l generalizing i with
  | nil => simp at h
  | cons z zs ih =>
    cases i with
    | zero =>
      simp at h
      subst h
      simp [liveHandles]; omega
    | succ j =>
      simp at h
      have := ih j h
      simp [liveHandles]; omega

theorem holders_le_liveHandles (a : Addr) (l : List (Option Addr)) :
    holders a l ≤ liveHandles l := by
  induction l with
  | nil => simp [holders, liveHandles]
  | cons x xs ih =>
    simp only [holders, liveHandles]
    by_cases hx : x = some a
    · subst hx; simp; omega
    · simp [hx]; omega

theorem holders_pos (a : Addr) (l : List (Option Addr)) (i : Nat)
    (h : l[i]? = some (some a)) : 1 ≤ holders a l := by
  induction l generalizing i with
  | nil => simp at h
  | cons z zs ih =>
    cases i with
    | zero =>
      simp at h
      subst h
      simp [holders]
    | succ j =>
      simp at h
      have := ih j h
      simp [holders]; omega

theorem holders_eq_zero_iff (a : Addr) (l : List (Option Addr)) :
    holders a l = 0 ↔ ∀ i : Nat, l[i]? ≠ some (some a) := by
  induction l with
  | nil => simp [holders]
  | cons z zs ih =>
    constructor
    · intro h i
      cases i with
      | zero =>
        simp
        intro hz
        subst hz
        simp [holders] at h
      | succ j =>
        have h2 : holders a zs = 0 := by simp [holders] at h; omega
        simpa using (ih.mp h2) j
    · intro h
      have h0 := h 0
      simp at h0
      have hzs : holders a zs = 0 := ih.mpr (fun (i : Nat) => by simpa using h (i + 1))
      simp [holders, h0, hzs]

/-! ## The two primitives of the shared handle -/

namespace SharedMemoryHandle

theorem Get_of_slot {s : State} {h : Nat} {d : Addr} (hs : s.shared[h]? = some (some d)) :
    Get s h = d := by
  simp [Get, hs]

theorem AcquireDataToHandle_shared (s : State) (h : Nat) (p : Addr) :
    (AcquireDataToHandle s h p).shared
      = if p = 0 ∨ Get s h = p then s.shared else s.shared.set h (some p) := by
  unfold AcquireDataToHandle
  by_cases hp : p = 0
  · simp [hp]
  by_cases hg : Get s h = p
  · simp [hg]
  simp only [hp, hg, if_false, false_or]
  cases RefMapType.find s.RefMap p <;> simp [setData]

theorem Release_shared (s : State) (h : Nat) :
    (Release s h).shared = s.shared.set h (some 0) := by
  unfold Release ReleaseResourseChecked
  by_cases hg : Get s h = 0
  · simp [hg, setData]
  simp only [hg, ne_eq, not_false_eq_true, if_true]
  cases RefMapType.find s.RefMap (Get s h) with
  | none => simp [setData]
  | some c =>
    simp only
    split <;> simp [setData, harz_delete, hg]

theorem AcquireDataToHandle_inv {s : State} {h : Nat} {d p : Addr} (hinv : Inv s)
    (hs : s.shared[h]? = some (some d)) (hd : d = 0 ∨ d = p ∨ p = 0) :
    Inv (AcquireDataToHandle s h p) := by
  have hg : Get s h = d := Get_of_slot hs
  by_cases hp : p = 0
  · simpa [AcquireDataToHandle, hp] using hinv
  by_cases hdp : d = p
  · simpa [AcquireDataToHandle, hp, hg, hdp] using hinv
  have hd0 : d = 0 := by
    rcases hd with h1 | h1 | h1
    · exact h1
    · exact absurd h1 hdp
    · exact absurd h1 hp
  subst hd0
  obtain ⟨ht, hl⟩ := hinv
  have hset := fun a => holders_set a s.shared h (some 0) (some p) hs
  have hlive := liveHandles_set s.shared h (some 0) (some p) hs
  have hle := holders_le_liveHandles p s.shared
  have htp := ht p
  have hsh := AcquireDataToHandle_shared s h p
  simp only [hp, hg, hdp, false_or, if_false] at hsh
  refine ⟨?_, ?_⟩
  · intro a
    have hsa := hset a
    have hta := ht a
    rw [hsh]
    unfold AcquireDataToHandle
    simp only [hp, hg, hdp, if_false]
    cases hfind : RefMapType.find s.RefMap p with
    | none =>
      simp only [RefMapType.find] at hfind
      simp only [setData, RefMapType.insert, hfind]
      by_cases hap : a = p
      · subst hap
        simp only [hfind] at htp
        have h0 : holders a s.shared = 0 := by
          by_contra hne
          simp [hp, hne] at htp
        simp at hsa
        have h1 : holders a (s.shared.set h (some a)) = 1 := by
          have : ¬ (0 = a) := fun e => hp e.symm
          simp [this] at hsa
          omega
        simp [hp, h1]
      · have hpa : ¬ (p = a) := fun e => hap e.symm
        simp only [hap, if_false]
        by_cases ha0 : a = 0
        · simp [ha0] at hta ⊢
          exact hta
        · have : ¬ (0 = a) := fun e => ha0 e.symm
          simp [this, hpa] at hsa
          rw [hta, hsa]
    | some c =>
      simp only [RefMapType.find] at hfind
      simp only [setData, RefMapType.assign]
      by_cases hap : a = p
      · subst hap
        simp only [hfind] at htp
        have hc : c = holders a s.shared ∧ holders a s.shared ≠ 0 := by
          by_cases hz : holders a s.shared = 0
          · simp [hz] at htp
          · simp [hp, hz] at htp
            exact ⟨htp, hz⟩
        have h1 : holders a (s.shared.set h (some a)) = c + 1 := by
          have : ¬ (0 = a) := fun e => hp e.symm
          simp [this] at hsa
          omega
        have hmod : (c + 1) % RefCountModulus = c + 1 := by
          unfold RefCountModulus
          unfold handleCapacity at hl
          omega
        simp [hp, h1, hmod]
      · have hpa : ¬ (p = a) := fun e => hap e.symm
        simp only [hap, if_false]
        by_cases ha0 : a = 0
        · simp [ha0] at hta ⊢
          exact hta
        · have : ¬ (0 = a) := fun e => ha0 e.symm
          simp [this, hpa] at hsa
          rw [hta, hsa]
  · rw [hsh]
    simp at hlive
    omega

theorem Release_inv {s : State} {h : Nat} {d : Addr} (hinv : Inv s)
    (hs : s.shared[h]? = some (some d)) : Inv (Release s h) := by
  have hg : Get s h = d := Get_of_slot hs
  obtain ⟨ht, hl⟩ := hinv
  have hset := fun a => holders_set a s.shared h (some d) (some 0) hs
  have hlive := liveHandles_set s.shared h (some d) (some 0) hs
  have hsh := Release_shared s h
  refine ⟨?_, ?_⟩
  · intro a
    have hsa := hset a
    have hta := ht a
    rw [hsh]
    by_cases hd : d = 0
    · subst hd
      simp at hsa
      simp only [Release, ReleaseResourseChecked, hg, ne_eq, not_true_eq_false, if_false,
        setData]
      rw [hta, hsa]
    have hpos := holders_pos d s.shared h hs
    have hle := holders_le_liveHandles d s.shared
    have htd := ht d
    have hz : holders d s.shared ≠ 0 := by omega
    simp only [hd, hz, or_self, if_false] at htd
    simp only [Release, ReleaseResourseChecked, hg, ne_eq, hd, not_false_eq_true, if_true,
      RefMapType.find, htd]
    have hmod : (holders d s.shared + (RefCountModulus - 1)) % RefCountModulus
        = holders d s.shared - 1 := by
      unfold RefCountModulus
      unfold handleCapacity at hl
      omega
    rw [hmod]
    by_cases hap : a = d
    · subst hap
      simp at hsa
      have h0a : ¬ (0 = a) := fun e => hd e.symm
      simp only [h0a, if_false] at hsa
      by_cases hone : holders a s.shared - 1 < 1
      · have hnew : holders a (s.shared.set h (some 0)) = 0 := by omega
        simp [hone, setData, harz_delete, hd, RefMapType.erase, hnew]
      · have hnew : holders a (s.shared.set h (some 0)) = holders a s.shared - 1 := by omega
        have hnz : holders a s.shared - 1 ≠ 0 := by omega
        simp [hone, setData, RefMapType.assign, hnew, hd, hnz]
    · have hda : ¬ (d = a) := fun e => hap e.symm
      by_cases ha0 : a = 0
      · subst ha0
        simp at hta
        by_cases hone : holders d s.shared - 1 < 1
        · simp [hone, setData, harz_delete, hd, RefMapType.erase, RefMapType.assign, hap, hta]
        · simp [hone, setData, RefMapType.assign, hap, hta]
      · have h0a : ¬ (0 = a) := fun e => ha0 e.symm
        simp [hda, h0a] at hsa
        by_cases hone : holders d s.shared - 1 < 1
        · simp only [hone, if_true, setData, harz_delete, ne_eq, hd, not_false_eq_true,
            RefMapType.erase, RefMapType.assign, hap, if_false]
          rw [hta, hsa]
        · simp only [hone, if_false, setData, RefMapType.assign, hap]
          rw [hta, hsa]
  · rw [hsh]
    simp at hlive
    omega

theorem construct_inv {s : State} (hinv : Inv s) (hroom : liveHandles s.shared < handleCapacity) :
    Inv (construct s) := by
  obtain ⟨ht, hl⟩ := hinv
  refine ⟨?_, ?_⟩
  · intro a
    have hta := ht a
    by_cases ha0 : a = 0
    · subst ha0
      simp at hta
      simp [construct, hta]
    · have h0a : ¬ (0 = a) := fun e => ha0 e.symm
      simp only [construct, holders_append, holders, Option.some.injEq, h0a, if_false,
        Nat.add_zero]
      exact hta
  · simp only [construct, liveHandles_append, liveHandles]
    simp
    omega

theorem destroy_slot_inv {s : State} {h : Nat} (hinv : Inv s)
    (hs : s.shared[h]? = some (some 0)) : Inv { s with shared := s.shared.set h none } := by
  obtain ⟨ht, hl⟩ := hinv
  have hlive := liveHandles_set s.shared h (some 0) none hs
  refine ⟨?_, ?_⟩
  · intro a
    have hsa := holders_set a s.shared h (some 0) none hs
    have hta := ht a
    by_cases ha0 : a = 0
    · subst ha0
      simp at hta
      simp [hta]
    · have h0a : ¬ (0 = a) := fun e => ha0 e.symm
      simp [h0a] at hsa
      simp only
      rw [hta, hsa]
  · simp at hlive
    simp only
    omega

theorem IsValid_of_inv {s : State} {h : Nat} {d : Addr} (hinv : Inv s)
    (hs : s.shared[h]? = some (some d)) : IsValid s h = decide (d ≠ 0) := by
  have hg : Get s h = d := Get_of_slot hs
  by_cases hd : d = 0
  · simp [IsValid, hg, hd]
  · have hpos := holders_pos d s.shared h hs
    have htd := hinv.1 d
    have hz : holders d s.shared ≠ 0 := by omega
    simp only [hd, hz, or_self, if_false] at htd
    simp [IsValid, hg, hd, RefMapType.find, htd]

/-- The guarded release `if (IsValid()) Release();` leaves the handle null. -/
theorem guarded_release {s : State} {h : Nat} {d : Addr} (hinv : Inv s)
    (hs : s.shared[h]? = some (some d)) :
    Inv (if IsValid s h then Release s h else s)
      ∧ (if IsValid s h then Release s h else s).shared = s.shared.set h (some 0) := by
  rw [IsValid_of_inv hinv hs]
  by_cases hd : d = 0
  · subst hd
    simp only [ne_eq, not_true_eq_false, decide_False, Bool.false_eq_true, if_false]
    refine ⟨hinv, ?_⟩
    apply List.ext_getElem?
    intro i
    by_cases hi : h = i
    · subst hi
      have hlt : h < s.shared.length := by
        rcases Nat.lt_or_ge h s.shared.length with hh | hh
        · exact hh
        · rw [List.getElem?_eq_none hh] at hs
          cases hs
      simp [List.getElem?_set, hlt, hs]
    · simp [List.getElem?_set, hi]
  · simp only [ne_eq, hd, not_false_eq_true, decide_True, if_true]
    exact ⟨Release_inv hinv hs, Release_shared s h⟩

theorem dtor_inv {s : State} {h : Nat} {d : Addr} (hinv : Inv s)
    (hs : s.shared[h]? = some (some d)) : Inv (dtor s h) := by
  obtain ⟨h1, h2⟩ := guarded_release hinv hs
  have hlt : h < s.shared.length := by
    rcases Nat.lt_or_ge h s.shared.length with hh | hh
    · exact hh
    · rw [List.getElem?_eq_none hh] at hs
      cases hs
  unfold dtor
  apply destroy_slot_inv h1
  rw [h2]
  simp [List.getElem?_set, hlt]

end SharedMemoryHandle

/-! ## Live slots through the operations -/

theorem isLive_iff (s : State) (j : Nat) :
    isLive s j = true ↔ ∃ d, s.shared[j]? = some (some d) := by
  unfold isLive
  cases hj : s.shared[j]? with
  | none => simp
  | some x => cases x <;> simp

theorem slot_lt {l : List (Option Addr)} {j : Nat} {x : Option Addr} (h : l[j]? = some x) :
    j < l.length := by
  rcases Nat.lt_or_ge j l.length with hh | hh
  · exact hh
  · rw [List.getElem?_eq_none hh] at h
    cases h

theorem live_set_some {l : List (Option Addr)} {j : Nat} (h : Nat) (v : Addr)
    (hj : ∃ d, l[j]? = some (some d)) : ∃ d, (l.set h (some v))[j]? = some (some d) := by
  obtain ⟨d, hd⟩ := hj
  by_cases hhj : h = j
  · subst hhj
    exact ⟨v, by simp [List.getElem?_set, slot_lt hd]⟩
  · exact ⟨d, by simp [List.getElem?_set, hhj, hd]⟩

theorem slot_set_self {l : List (Option Addr)} {h : Nat} (x : Option Addr)
    (hj : ∃ d, l[h]? = some (some d)) : (l.set h x)[h]? = some x := by
  obtain ⟨d, hd⟩ := hj
  simp [List.getElem?_set, slot_lt hd]

namespace SharedMemoryHandle

theorem live_construct {s : State} {j : Nat} (hj : isLive s j = true) :
    isLive (construct s) j = true := by
  rw [isLive_iff] at hj ⊢
  obtain ⟨d, hd⟩ := hj
  exact ⟨d, by simp [construct, List.getElem?_append, slot_lt hd, hd]⟩

theorem slot_construct_new (s : State) :
    (construct s).shared[s.shared.length]? = some (some 0) := by
  simp [construct]

theorem Get_construct {s : State} {j : Nat} (hj : isLive s j = true) :
    Get (construct s) j = Get s j := by
  rw [isLive_iff] at hj
  obtain ⟨d, hd⟩ := hj
  have : (construct s).shared[j]? = some (some d) := by
    simp [construct, List.getElem?_append, slot_lt hd, hd]
  rw [Get_of_slot this, Get_of_slot hd]

theorem live_acquire {s : State} {j : Nat} (h : Nat) (p : Addr) (hj : isLive s j = true) :
    isLive (AcquireDataToHandle s h p) j = true := by
  rw [isLive_iff] at hj ⊢
  rw [AcquireDataToHandle_shared]
  split
  · exact hj
  · exact live_set_some h p hj

theorem live_release {s : State} {j : Nat} (h : Nat) (hj : isLive s j = true) :
    isLive (Release s h) j = true := by
  rw [isLive_iff] at hj ⊢
  rw [Release_shared]
  exact live_set_some h 0 hj

theorem step_preserves_inv {s s1 : State} (op : Op) (hinv : Inv s) (hstep : step s op = some s1) :
    Inv s1 := by
  have hnew : ∀ t : State, Inv t → liveHandles t.shared < handleCapacity → ∀ p,
      Inv (AcquireDataToHandle (construct t) t.shared.length p) := fun t ht hroom p =>
    AcquireDataToHandle_inv (construct_inv ht hroom) (slot_construct_new t) (Or.inl rfl)
  cases op with
  | Create ptr =>
    simp only [step, canConstruct, decide_eq_true_eq] at hstep
    split at hstep
    · rename_i hc
      cases hstep
      have hn : Inv (harz_new s ptr).1 := by
        unfold harz_new
        split
        · exact hinv
        · exact hinv
      have hsh : (harz_new s ptr).1.shared = s.shared := by
        unfold harz_new
        split <;> rfl
      exact hnew _ hn (by rw [hsh]; exact hc.1) _
    · cases hstep
  | FromRaw p =>
    simp only [step, canConstruct, decide_eq_true_eq] at hstep
    split at hstep
    · rename_i hc
      cases hstep
      exact hnew s hinv hc p
    · cases hstep
  | Copy o =>
    simp only [step, canConstruct, decide_eq_true_eq] at hstep
    split at hstep
    · rename_i hc
      cases hstep
      exact hnew s hinv hc.1 _
    · cases hstep
  | Promote u =>
    simp only [step, canConstruct, decide_eq_true_eq] at hstep
    split at hstep
    · rename_i hc
      cases hstep
      exact hnew s hinv hc _
    · cases hstep
  | Move o =>
    simp only [step, canConstruct, decide_eq_true_eq] at hstep
    split at hstep
    · rename_i hc
      cases hstep
      have ho := live_acquire s.shared.length (Get s o) (live_construct hc.2)
      obtain ⟨d, hd⟩ := (isLive_iff _ _).mp ho
      exact Release_inv (hnew s hinv hc.1 _) hd
    · cases hstep
  | Release h =>
    simp only [step] at hstep
    split at hstep
    · rename_i hc
      cases hstep
      obtain ⟨d, hd⟩ := (isLive_iff _ _).mp hc
      exact Release_inv hinv hd
    · cases hstep
  | Destroy h =>
    simp only [step] at hstep
    split at hstep
    · rename_i hc
      cases hstep
      obtain ⟨d, hd⟩ := (isLive_iff _ _).mp hc
      exact dtor_inv hinv hd
    · cases hstep
  | CopyAssign h o =>
    simp only [step] at hstep
    split at hstep
    · rename_i hc
      cases hstep
      obtain ⟨d, hd⟩ := (isLive_iff _ _).mp hc.1
      unfold assign_copy
      split
      · obtain ⟨h1, h2⟩ := guarded_release hinv hd
        exact AcquireDataToHandle_inv h1 (by rw [h2]; exact slot_set_self _ ⟨d, hd⟩) (Or.inl rfl)
      · exact hinv
    · cases hstep
  | MoveAssign h o =>
    simp only [step] at hstep
    split at hstep
    · rename_i hc
      cases hstep
      obtain ⟨d, hd⟩ := (isLive_iff _ _).mp hc.1
      unfold assign_move
      split
      · obtain ⟨h1, h2⟩ := guarded_release hinv hd
        have hacq := AcquireDataToHandle_inv (p := Get (if IsValid s h then Release s h else s) o)
          h1 (by rw [h2]; exact slot_set_self _ ⟨d, hd⟩) (Or.inl rfl)
        have ho1 : isLive (if IsValid s h then Release s h else s) o = true := by
          rw [isLive_iff, h2]
          exact live_set_some h 0 ((isLive_iff _ _).mp hc.2)
        obtain ⟨e, he⟩ := (isLive_iff _ _).mp (live_acquire h _ ho1)
        exact Release_inv hacq he
      · exact hinv
    · cases hstep
  | Reset h p =>
    simp only [step] at hstep
    split at hstep
    · rename_i hc
      cases hstep
      obtain ⟨d, hd⟩ := (isLive_iff _ _).mp hc
      unfold Reset
      split
      · exact hinv
      · obtain ⟨h1, h2⟩ := guarded_release hinv hd
        exact AcquireDataToHandle_inv h1 (by rw [h2]; exact slot_set_self _ ⟨d, hd⟩) (Or.inl rfl)
    · cases hstep
  | ResetHandle h o =>
    simp only [step, canConstruct, decide_eq_true_eq] at hstep
    split at hstep
    · rename_i hc
      cases hstep
      have h0 : Inv (ctor_copy s o).1 := hnew s hinv hc.1 _
      have htmp : isLive (ctor_copy s o).1 (ctor_copy s o).2 = true := by
        apply live_acquire
        rw [isLive_iff]
        exact ⟨0, slot_construct_new s⟩
      have hh : isLive (ctor_copy s o).1 h = true := live_acquire _ _ (live_construct hc.2.1)
      unfold Reset_handle
      simp only
      split
      · obtain ⟨e, he⟩ := (isLive_iff _ _).mp htmp
        exact dtor_inv h0 he
      · obtain ⟨d, hd⟩ := (isLive_iff _ _).mp hh
        obtain ⟨h1, h2⟩ := guarded_release h0 hd
        have hacq := AcquireDataToHandle_inv
          (p := Get (if IsValid (ctor_copy s o).1 h then Release (ctor_copy s o).1 h
            else (ctor_copy s o).1) (ctor_copy s o).2)
          h1 (by rw [h2]; exact slot_set_self _ ⟨d, hd⟩) (Or.inl rfl)
        have ht1 : isLive (if IsValid (ctor_copy s o).1 h then Release (ctor_copy s o).1 h
            else (ctor_copy s o).1) (ctor_copy s o).2 = true := by
          rw [isLive_iff, h2]
          exact live_set_some h 0 ((isLive_iff _ _).mp htmp)
        obtain ⟨e, he⟩ := (isLive_iff _ _).mp (live_acquire h _ ht1)
        exact dtor_inv hacq he
    · cases hstep
  | GetWeak h =>
    simp only [step, canConstruct, decide_eq_true_eq] at hstep
    split at hstep
    · rename_i hc
      cases hstep
      have h0 : Inv (ctor_raw s (Get s h)).1 := hnew s hinv hc.1 _
      have htmp : isLive (ctor_raw s (Get s h)).1 (ctor_raw s (Get s h)).2 = true := by
        apply live_acquire
        rw [isLive_iff]
        exact ⟨0, slot_construct_new s⟩
      obtain ⟨e, he⟩ := (isLive_iff _ _).mp htmp
      exact dtor_inv h0 he
    · cases hstep

end SharedMemoryHandle

theorem init_inv : Inv State.init := by
  refine ⟨?_, ?_⟩
  · intro a
    simp [State.init, holders]
  · simp [State.init, liveHandles, handleCapacity]

theorem run_preserves_inv (ops : List Op) : ∀ {s s1 : State}, Inv s → run s ops = some s1 → Inv s1 := by
  induction ops with
  | nil =>
    intro s s1 hinv hrun
    simp [run] at hrun
    subst hrun
    exact hinv
  | cons op ops ih =>
    intro s s1 hinv hrun
    simp only [run] at hrun
    cases hstep : step s op with
    | none => simp [hstep] at hrun
    | some s2 =>
      simp only [hstep] at hrun
      exact ih (SharedMemoryHandle.step_preserves_inv op hinv hstep) hrun

/-! ## What one acquisition and one release do to the table and to the log -/

namespace SharedMemoryHandle

theorem AcquireDataToHandle_noop {s : State} {h : Nat} {p : Addr} (hp : p = 0 ∨ Get s h = p) :
    AcquireDataToHandle s h p = s := by
  unfold AcquireDataToHandle
  rcases hp with hp | hp
  · simp [hp]
  · by_cases h0 : p = 0
    · simp [h0]
    · simp [h0, hp]

theorem AcquireDataToHandle_RefMap {s : State} {h : Nat} {p : Addr} (hp : p ≠ 0)
    (hg : Get s h ≠ p) (b : Addr) :
    (AcquireDataToHandle s h p).RefMap b
      = if b = p then
          (match s.RefMap p with
            | some c => some ((c + 1) % RefCountModulus)
            | none => some 1)
        else s.RefMap b := by
  unfold AcquireDataToHandle
  simp only [hp, hg, if_false, RefMapType.find]
  cases hf : s.RefMap p with
  | none => simp [setData, RefMapType.insert, hf]
  | some c => simp [setData, RefMapType.assign]

theorem AcquireDataToHandle_deleted (s : State) (h : Nat) (p : Addr) :
    (AcquireDataToHandle s h p).deleted = s.deleted := by
  unfold AcquireDataToHandle
  split
  · rfl
  · split
    · rfl
    · cases RefMapType.find s.RefMap p <;> rfl

theorem AcquireDataToHandle_live (s : State) (h : Nat) (p : Addr) :
    (AcquireDataToHandle s h p).live = s.live := by
  unfold AcquireDataToHandle
  split
  · rfl
  · split
    · rfl
    · cases RefMapType.find s.RefMap p <;> rfl

theorem AcquireDataToHandle_asserts (s : State) (h : Nat) (p : Addr) :
    (AcquireDataToHandle s h p).asserts = s.asserts := by
  unfold AcquireDataToHandle
  split
  · rfl
  · split
    · rfl
    · cases RefMapType.find s.RefMap p <;> rfl

theorem Release_null {s : State} {h : Nat} (hg : Get s h = 0) :
    (Release s h).RefMap = s.RefMap ∧ (Release s h).deleted = s.deleted
      ∧ (Release s h).live = s.live ∧ (Release s h).asserts = s.asserts := by
  simp [Release, ReleaseResourseChecked, hg, setData]

theorem Release_counted {s : State} {h : Nat} {a : Addr} {c : Nat} (hg : Get s h = a)
    (ha : a ≠ 0) (hc : s.RefMap a = some c) (hlt : c < RefCountModulus) :
    (∀ b, (Release s h).RefMap b
        = if b = a then (if c = 1 then none else some ((c + (RefCountModulus - 1)) % RefCountModulus))
          else s.RefMap b)
      ∧ (Release s h).deleted = (if c = 1 then s.deleted ++ [a] else s.deleted)
      ∧ (Release s h).live = (if c = 1 then s.live.filter (fun x => x ≠ a) else s.live)
      ∧ (Release s h).asserts = s.asserts := by
  have hone : ((c + (RefCountModulus - 1)) % RefCountModulus < 1) ↔ c = 1 := by
    unfold RefCountModulus at *
    omega
  simp only [Release, ReleaseResourseChecked, hg, ne_eq, ha, not_false_eq_true, if_true,
    RefMapType.find, hc]
  by_cases h1 : c = 1
  · have hlt1 := hone.mpr h1
    subst h1
    simp only [hlt1, if_true]
    refine ⟨?_, ?_, ?_, ?_⟩
    · intro b
      by_cases hb : b = a <;> simp [setData, harz_delete, ha, RefMapType.erase, RefMapType.assign, hb]
    · simp [setData, harz_delete, ha]
    · simp [setData, harz_delete, ha]
    · simp [setData, harz_delete, ha]
  · have hlt1 : ¬ ((c + (RefCountModulus - 1)) % RefCountModulus < 1) := fun e => h1 (hone.mp e)
    simp only [hlt1, if_false, h1]
    refine ⟨?_, ?_, ?_, ?_⟩
    · intro b
      by_cases hb : b = a <;> simp [setData, RefMapType.assign, hb]
    · simp [setData]
    · simp [setData]
    · simp [setData]

end SharedMemoryHandle

namespace SharedMemoryHandle

theorem Get_construct_new (s : State) : Get (construct s) s.shared.length = 0 :=
  Get_of_slot (slot_construct_new s)

/-- A handle object constructed on a non-null address `p`: the body of every constructor. -/
theorem construct_acquire {s : State} {p : Addr} (hp : p ≠ 0) :
    (AcquireDataToHandle (construct s) s.shared.length p).shared = s.shared ++ [some p]
      ∧ (∀ b, (AcquireDataToHandle (construct s) s.shared.length p).RefMap b
          = if b = p then
              (match s.RefMap p with
                | some c => some ((c + 1) % RefCountModulus)
                | none => some 1)
            else s.RefMap b)
      ∧ (AcquireDataToHandle (construct s) s.shared.length p).deleted = s.deleted
      ∧ (AcquireDataToHandle (construct s) s.shared.length p).live = s.live
      ∧ (AcquireDataToHandle (construct s) s.shared.length p).asserts = s.asserts := by
  have hg : Get (construct s) s.shared.length ≠ p := by
    rw [Get_construct_new]
    exact fun e => hp e.symm
  refine ⟨?_, ?_, ?_, ?_, ?_⟩
  · rw [AcquireDataToHandle_shared, if_neg (not_or.mpr ⟨hp, hg⟩)]
    simp [construct]
  · intro b
    rw [AcquireDataToHandle_RefMap hp hg]
    rfl
  · rw [AcquireDataToHandle_deleted]; rfl
  · rw [AcquireDataToHandle_live]; rfl
  · rw [AcquireDataToHandle_asserts]; rfl

theorem slot_append_new (l : List (Option Addr)) (x : Option Addr) :
    (l ++ [x])[l.length]? = some x := by
  simp

theorem slot_append_old {l : List (Option Addr)} {j : Nat} {y : Option Addr} (x : Option Addr)
    (h : l[j]? = some y) : (l ++ [x])[j]? = some y := by
  simp [List.getElem?_append, slot_lt h, h]

end SharedMemoryHandle

namespace SharedMemoryHandle

/-- `Create` with a successful allocation. -/
theorem Create_effect {s : State} {ptr : Addr} (hptr : ptr ≠ 0) :
    (Create s ptr).2 = s.shared.length
      ∧ (Create s ptr).1.shared = s.shared ++ [some ptr]
      ∧ (∀ b, (Create s ptr).1.RefMap b
          = if b = ptr then
              (match s.RefMap ptr with
                | some c => some ((c + 1) % RefCountModulus)
                | none => some 1)
            else s.RefMap b)
      ∧ (Create s ptr).1.deleted = s.deleted
      ∧ (Create s ptr).1.live = ptr :: s.live
      ∧ (Create s ptr).1.asserts = s.asserts := by
  have hnew : harz_new s ptr = ({ s with live := ptr :: s.live }, ptr) := by
    simp [harz_new, hptr]
  obtain ⟨h1, h2, h3, h4, h5⟩ := construct_acquire (s := { s with live := ptr :: s.live }) hptr
  simp only [Create, ctor_raw, hnew]
  exact ⟨trivial, h1, h2, h3, h4, h5⟩

/-- Copy construction from a handle that stores a non-null address. -/
theorem ctor_copy_effect {s : State} {o : Nat} {a : Addr} (hs : s.shared[o]? = some (some a))
    (ha : a ≠ 0) :
    (ctor_copy s o).2 = s.shared.length
      ∧ (ctor_copy s o).1.shared = s.shared ++ [some a]
      ∧ (∀ b, (ctor_copy s o).1.RefMap b
          = if b = a then
              (match s.RefMap a with
                | some c => some ((c + 1) % RefCountModulus)
                | none => some 1)
            else s.RefMap b)
      ∧ (ctor_copy s o).1.deleted = s.deleted
      ∧ (ctor_copy s o).1.live = s.live
      ∧ (ctor_copy s o).1.asserts = s.asserts := by
  obtain ⟨h1, h2, h3, h4, h5⟩ := construct_acquire (s := s) ha
  simp only [ctor_copy, Get_of_slot hs]
  exact ⟨trivial, h1, h2, h3, h4, h5⟩

end SharedMemoryHandle

namespace SharedMemoryHandle

/-- A release touches no entry but that of the address the handle stores, and finalizes at
most that address. -/
theorem Release_frame (s : State) (h : Nat) :
    (∀ b, b ≠ Get s h → (Release s h).RefMap b = s.RefMap b)
      ∧ ((Release s h).deleted = s.deleted ∨ (Release s h).deleted = s.deleted ++ [Get s h]) := by
  by_cases hg : Get s h = 0
  · obtain ⟨h1, h2, -, -⟩ := Release_null hg
    exact ⟨fun b _ => by rw [h1], Or.inl h2⟩
  · cases hf : s.RefMap (Get s h) with
    | none =>
      have hrel : Release s h = setData { s with asserts := s.asserts + 1 } h 0 := by
        simp only [Release, ReleaseResourseChecked, ne_eq, hg, not_false_eq_true, if_true,
          RefMapType.find, hf]
      rw [hrel]
      exact ⟨fun b _ => rfl, Or.inl rfl⟩
    | some c =>
      by_cases hlt1 : (c + (RefCountModulus - 1)) % RefCountModulus < 1
      · have hrel : Release s h = setData (harz_delete
            { s with RefMap := RefMapType.erase (RefMapType.assign s.RefMap (Get s h)
                ((c + (RefCountModulus - 1)) % RefCountModulus)) (Get s h) } (Get s h)) h 0 := by
          simp only [Release, ReleaseResourseChecked, ne_eq, hg, not_false_eq_true, if_true,
            RefMapType.find, hf, hlt1]
        rw [hrel]
        refine ⟨fun b hb => ?_, Or.inr ?_⟩
        · simp only [setData, harz_delete, ne_eq, hg, not_false_eq_true, if_true,
            RefMapType.erase, RefMapType.assign, hb, if_false]
        · simp only [setData, harz_delete, ne_eq, hg, not_false_eq_true, if_true]
      · have hrel : Release s h = setData
            { s with RefMap := (RefMapType.assign s.RefMap (Get s h)
                ((c + (RefCountModulus - 1)) % RefCountModulus)) } h 0 := by
          simp only [Release, ReleaseResourseChecked, ne_eq, hg, not_false_eq_true, if_true,
            RefMapType.find, hf, hlt1, if_false]
        rw [hrel]
        refine ⟨fun b hb => ?_, Or.inl ?_⟩
        · simp only [setData, RefMapType.assign, hb, if_false]
        · simp only [setData]

/-- The release that follows an acquisition of the same address undoes its increment. -/
theorem Release_undoes_increment {t : State} {A : Nat} {a : Addr} {c : Nat}
    (hg : Get t A = a) (ha : a ≠ 0) (hc : t.RefMap a = some ((c + 1) % RefCountModulus))
    (h1 : 1 ≤ c) (hlt : c < RefCountModulus) :
    (Release t A).RefMap a = some c ∧ (Release t A).deleted = t.deleted := by
  have hm : (c + 1) % RefCountModulus < RefCountModulus := by
    unfold RefCountModulus
    omega
  obtain ⟨e1, e2, -, -⟩ := Release_counted hg ha hc hm
  have hne : (c + 1) % RefCountModulus ≠ 1 := by
    unfold RefCountModulus at *
    omega
  have hback : ((c + 1) % RefCountModulus + (RefCountModulus - 1)) % RefCountModulus = c := by
    unfold RefCountModulus at *
    omega
  refine ⟨?_, ?_⟩
  · rw [e1]; simp [hne, hback]
  · rw [e2]; simp [hne]

end SharedMemoryHandle

namespace SharedMemoryHandle

/-- The second half of a move: `B` (not holding `a`) acquires the address of `A`, then `A`
releases it. -/
theorem acquire_then_release_source {s1 : State} {A B : Nat} {a b' : Addr} {c' : Nat}
    (hAB : A ≠ B) (hA : s1.shared[A]? = some (some a)) (hB : s1.shared[B]? = some (some b'))
    (hb : b' ≠ a) (ha : a ≠ 0) (hc : s1.RefMap a = some c') (h1 : 1 ≤ c')
    (hlt : c' < RefCountModulus) :
    (Release (AcquireDataToHandle s1 B (Get s1 A)) A).shared[A]? = some (some 0)
      ∧ (Release (AcquireDataToHandle s1 B (Get s1 A)) A).shared[B]? = some (some a)
      ∧ (Release (AcquireDataToHandle s1 B (Get s1 A)) A).RefMap a = some c'
      ∧ (Release (AcquireDataToHandle s1 B (Get s1 A)) A).deleted = s1.deleted := by
  have hgA : Get s1 A = a := Get_of_slot hA
  have hgB : Get s1 B ≠ a := by rw [Get_of_slot hB]; exact hb
  rw [hgA]
  have hsh : (AcquireDataToHandle s1 B a).shared = s1.shared.set B (some a) := by
    rw [AcquireDataToHandle_shared, if_neg (not_or.mpr ⟨ha, hgB⟩)]
  have hrm : (AcquireDataToHandle s1 B a).RefMap a = some ((c' + 1) % RefCountModulus) := by
    rw [AcquireDataToHandle_RefMap ha hgB]
    simp [hc]
  have hBA : B ≠ A := fun e => hAB e.symm
  have hslotA : (AcquireDataToHandle s1 B a).shared[A]? = some (some a) := by
    rw [hsh, List.getElem?_set_ne hBA]
    exact hA
  obtain ⟨r1, r2⟩ := Release_undoes_increment (Get_of_slot hslotA) ha hrm h1 hlt
  refine ⟨?_, ?_, r1, ?_⟩
  · rw [Release_shared]
    exact slot_set_self _ ⟨a, hslotA⟩
  · rw [Release_shared, List.getElem?_set_ne hAB, hsh]
    exact slot_set_self _ ⟨b', hB⟩
  · rw [r2, AcquireDataToHandle_deleted]

end SharedMemoryHandle

/-! ## Runs of copies and of releases -/

theorem run_append (ops₁ ops₂ : List Op) : ∀ (s : State),
    run s (ops₁ ++ ops₂) = (run s ops₁).bind (fun t => run t ops₂) := by
  induction ops₁ with
  | nil => intro s; simp [run]
  | cons op ops ih =>
    intro s
    simp only [List.cons_append, run]
    cases step s op with
    | none => simp
    | some s1 => simpa using ih s1

theorem step_Copy {t : State} {h0 : Nat} (hroom : liveHandles t.shared < handleCapacity)
    (hlive : isLive t h0 = true) :
    step t (Op.Copy h0) = some (SharedMemoryHandle.ctor_copy t h0).1 := by
  simp [step, canConstruct, hroom, hlive]

theorem step_Release {t : State} {h : Nat} (hlive : isLive t h = true) :
    step t (Op.Release h) = some (SharedMemoryHandle.Release t h) := by
  simp [step, hlive]

theorem liveHandles_append_some (l : List (Option Addr)) (x : Addr) :
    liveHandles (l ++ [some x]) = liveHandles l + 1 := by
  simp [liveHandles_append, liveHandles]

/-- Copying the handle `h0`, which stores `p`, `j` times in a row. -/
theorem run_copies (p : Addr) (hp : p ≠ 0) (h0 : Nat) : ∀ (j : Nat) (t : State) (c : Nat),
    t.shared[h0]? = some (some p) → t.RefMap p = some c → c + j < RefCountModulus →
    liveHandles t.shared + j ≤ handleCapacity →
    ∃ t1, run t (List.replicate j (Op.Copy h0)) = some t1
      ∧ t1.shared = t.shared ++ List.replicate j (some p)
      ∧ t1.RefMap p = some (c + j) ∧ t1.deleted = t.deleted := by
  intro j
  induction j with
  | zero =>
    intro t c _ hc _ _
    exact ⟨t, by simp [run], by simp, by simpa using hc, rfl⟩
  | succ j ih =>
    intro t c hs hc hlt hroom
    obtain ⟨-, e2, e3, e4, -, -⟩ := SharedMemoryHandle.ctor_copy_effect hs hp
    have hstep := @step_Copy t h0 (by omega) ((isLive_iff _ _).mpr ⟨p, hs⟩)
    have hmod : (c + 1) % RefCountModulus = c + 1 := Nat.mod_eq_of_lt (by omega)
    have hc1 : (SharedMemoryHandle.ctor_copy t h0).1.RefMap p = some (c + 1) := by
      rw [e3]; simp [hc, hmod]
    have hs1 : (SharedMemoryHandle.ctor_copy t h0).1.shared[h0]? = some (some p) := by
      rw [e2]; exact SharedMemoryHandle.slot_append_old _ hs
    obtain ⟨t1, r1, r2, r3, r4⟩ := ih (SharedMemoryHandle.ctor_copy t h0).1 (c + 1) hs1 hc1
      (by omega) (by rw [e2, liveHandles_append_some]; omega)
    refine ⟨t1, ?_, ?_, ?_, ?_⟩
    · simp only [List.replicate_succ, run, hstep]
      exact r1
    · rw [r2, e2, List.replicate_succ]
      simp
    · have hadd : c + 1 + j = c + (j + 1) := by omega
      rw [r3, hadd]
    · rw [r4, e4]

/-- Releasing, one after the other, distinct handles that all store `p`, when the count of `p`
is their number. -/
theorem run_releases (p : Addr) (hp : p ≠ 0) : ∀ (todo : List Nat) (t : State) (k : Nat),
    todo.Nodup → (∀ i ∈ todo, t.shared[i]? = some (some p)) →
    t.RefMap p = some todo.length → todo.length < RefCountModulus → k ≤ todo.length →
    ∃ t1, run t ((todo.take k).map Op.Release) = some t1
      ∧ (k < todo.length → t1.RefMap p = some (todo.length - k) ∧ t1.deleted = t.deleted)
      ∧ (k = todo.length → 1 ≤ k → t1.RefMap p = none ∧ t1.deleted = t.deleted ++ [p]) := by
  intro todo
  induction todo with
  | nil =>
    intro t k _ _ hc _ hk
    have hk0 : k = 0 := by simpa using hk
    subst hk0
    exact ⟨t, by simp [run], fun h => absurd h (by simp), fun _ h => absurd h (by omega)⟩
  | cons i rest ih =>
    intro t k hnd hall hc hlt hk
    cases k with
    | zero =>
      refine ⟨t, by simp [run], fun _ => ⟨by simpa using hc, rfl⟩, fun h => ?_⟩
      simp at h
    | succ k =>
      have hi : t.shared[i]? = some (some p) := hall i (by simp)
      have hstep := step_Release (t := t) (h := i) ((isLive_iff _ _).mpr ⟨p, hi⟩)
      obtain ⟨e1, e2, -, -⟩ := SharedMemoryHandle.Release_counted
        (SharedMemoryHandle.Get_of_slot hi) hp hc hlt
      have hinot : i ∉ rest := (List.nodup_cons.mp hnd).1
      have hrest : ∀ j ∈ rest, (SharedMemoryHandle.Release t i).shared[j]? = some (some p) := by
        intro j hj
        have hij : i ≠ j := fun e => hinot (e ▸ hj)
        rw [SharedMemoryHandle.Release_shared, List.getElem?_set_ne hij]
        exact hall j (by simp [hj])
      simp only [List.length_cons] at hc hlt hk e1 e2 ⊢
      simp only [List.take_succ_cons, List.map_cons, run, hstep]
      by_cases hr : rest.length = 0
      · have hnil : rest = [] := List.length_eq_zero.mp hr
        subst hnil
        refine ⟨SharedMemoryHandle.Release t i, by simp [run], fun h => ?_, fun _ _ => ?_⟩
        · simp at h
        · refine ⟨?_, ?_⟩
          · rw [e1]; simp
          · rw [e2]; simp
      · have hne : rest.length + 1 ≠ 1 := by omega
        have hmod : (rest.length + 1 + (RefCountModulus - 1)) % RefCountModulus = rest.length := by
          unfold RefCountModulus at *
          omega
        have hc1 : (SharedMemoryHandle.Release t i).RefMap p = some rest.length := by
          rw [e1]; simp [hr, hmod]
        have hd1 : (SharedMemoryHandle.Release t i).deleted = t.deleted := by
          rw [e2]; simp [hr]
        obtain ⟨t1, r1, r2, r3⟩ := ih (SharedMemoryHandle.Release t i) k
          (List.nodup_cons.mp hnd).2 hrest hc1 (by omega) (by omega)
        refine ⟨t1, r1, fun h => ?_, fun h _ => ?_⟩
        · obtain ⟨q1, q2⟩ := r2 (by omega)
          refine ⟨?_, by rw [q2, hd1]⟩
          have hsub : rest.length + 1 - (k + 1) = rest.length - k := by omega
          rw [q1, hsub]
        · obtain ⟨q1, q2⟩ := r3 (by omega) (by omega)
          exact ⟨q1, by rw [q2, hd1]⟩

theorem slot_append_replicate (l : List (Option Addr)) (x : Option Addr) (n i : Nat)
    (h1 : l.length ≤ i) (h2 : i < l.length + n) : (l ++ List.replicate n x)[i]? = some x := by
  rw [List.getElem?_append_right h1]
  rw [List.getElem?_replicate]
  have : i - l.length < n := by omega
  simp [this]

/-! ## The temporary shared handle of `GetWeak` -/

namespace SharedMemoryHandle

/-- `GetWeak` on a handle that is null, or whose address has a count of at least 1: the
temporary adds one reference and gives it back. -/
theorem GetWeak_effect {s : State} {S : Nat} {a : Addr} {c : Nat}
    (hS : s.shared[S]? = some (some a))
    (hc : a = 0 ∨ (s.RefMap a = some c ∧ 1 ≤ c ∧ c < RefCountModulus)) :
    (GetWeak s S).2 = a
      ∧ (GetWeak s S).1.RefMap = s.RefMap
      ∧ (GetWeak s S).1.deleted = s.deleted
      ∧ (GetWeak s S).1.shared = s.shared ++ [none] := by
  have hg : Get s S = a := Get_of_slot hS
  simp only [GetWeak, ctor_raw, hg]
  by_cases ha : a = 0
  · subst ha
    rw [AcquireDataToHandle_noop (Or.inl rfl)]
    have hv : IsValid (construct s) s.shared.length = false := by
      simp [IsValid, Get_construct_new]
    refine ⟨Get_construct_new s, ?_, ?_, ?_⟩
    · simp only [dtor, hv, Bool.false_eq_true, if_false]
      rfl
    · simp only [dtor, hv, Bool.false_eq_true, if_false]
      rfl
    · simp only [dtor, hv, Bool.false_eq_true, if_false]
      simp [construct]
  · rcases hc with hc | ⟨hc, h1, hlt⟩
    · exact absurd hc ha
    obtain ⟨k1, k2, k3, -, -⟩ := construct_acquire (s := s) ha
    have hslot : (AcquireDataToHandle (construct s) s.shared.length a).shared[s.shared.length]?
        = some (some a) := by
      rw [k1]; exact slot_append_new _ _
    have hgt := Get_of_slot hslot
    have hrm : (AcquireDataToHandle (construct s) s.shared.length a).RefMap a
        = some ((c + 1) % RefCountModulus) := by
      rw [k2]; simp [hc]
    have hv : IsValid (AcquireDataToHandle (construct s) s.shared.length a) s.shared.length
        = true := by
      simp [IsValid, hgt, ha, RefMapType.find, hrm]
    obtain ⟨r1, r2⟩ := Release_undoes_increment hgt ha hrm h1 hlt
    obtain ⟨f1, -⟩ := Release_frame (AcquireDataToHandle (construct s) s.shared.length a)
      s.shared.length
    rw [hgt] at f1
    refine ⟨hgt, ?_, ?_, ?_⟩
    · funext b
      simp only [dtor, hv, if_true]
      by_cases hb : b = a
      · subst hb
        rw [r1, hc]
      · rw [f1 b hb, k2]
        simp [hb]
    · simp only [dtor, hv, if_true]
      rw [r2, k3]
    · simp only [dtor, hv, if_true]
      rw [Release_shared, k1]
      simp

end SharedMemoryHandle

/-! ## An address that no shared handle stores -/

theorem holders_eq_zero_iff_not_mem (a : Addr) (l : List (Option Addr)) :
    holders a l = 0 ↔ some a ∉ l := by
  induction l with
  | nil => simp [holders]
  | cons x xs ih =>
    by_cases hx : x = some a
    · subst hx
      simp [holders]
    · have hx2 : ¬ (some a = x) := fun e => hx e.symm
      simp [holders, hx, hx2, ih]

theorem not_mem_set {a : Addr} {l : List (Option Addr)} (i : Nat) {y : Option Addr}
    (hl : some a ∉ l) (hy : y ≠ some a) : some a ∉ l.set i y := by
  intro hmem
  rcases List.mem_or_eq_of_mem_set hmem with h | h
  · exact hl h
  · exact hy h.symm

namespace SharedMemoryHandle

theorem Get_absent {a : Addr} {s : State} (ha : a ≠ 0) (hl : some a ∉ s.shared) (o : Nat) :
    Get s o ≠ a := by
  unfold Get
  cases ho : s.shared[o]? with
  | none => exact fun e => ha e.symm
  | some x =>
    cases x with
    | none => exact fun e => ha e.symm
    | some d =>
      intro e
      simp only at e
      subst e
      exact hl (List.getElem?_mem ho)

theorem acquire_absent {a : Addr} {s : State} (hl : some a ∉ s.shared) (h : Nat) {p : Addr}
    (hp : p ≠ a) : some a ∉ (AcquireDataToHandle s h p).shared := by
  rw [AcquireDataToHandle_shared]
  split
  · exact hl
  · exact not_mem_set h hl (by simpa using hp)

theorem release_absent {a : Addr} {s : State} (ha : a ≠ 0) (hl : some a ∉ s.shared) (h : Nat) :
    some a ∉ (Release s h).shared := by
  rw [Release_shared]
  exact not_mem_set h hl (by simpa using fun e : 0 = a => ha e.symm)

theorem construct_absent {a : Addr} {s : State} (ha : a ≠ 0) (hl : some a ∉ s.shared) :
    some a ∉ (construct s).shared := by
  simp only [construct, List.mem_append, List.mem_singleton, not_or]
  exact ⟨hl, by simpa using ha⟩

theorem guarded_absent {a : Addr} {s : State} (ha : a ≠ 0) (hl : some a ∉ s.shared) (h : Nat) :
    some a ∉ (if IsValid s h then Release s h else s).shared := by
  split
  · exact release_absent ha hl h
  · exact hl

theorem dtor_absent {a : Addr} {s : State} (ha : a ≠ 0) (hl : some a ∉ s.shared) (h : Nat) :
    some a ∉ (dtor s h).shared := by
  unfold dtor
  exact not_mem_set h (guarded_absent ha hl h) (by simp)

/-- An operation that does not bring `a` in leaves `a` stored by no shared handle. -/
theorem step_keeps_absent {a : Addr} {s s1 : State} (op : Op) (ha : a ≠ 0)
    (hl : some a ∉ s.shared) (hop : Op.brings a op = false) (hstep : step s op = some s1) :
    some a ∉ s1.shared := by
  have h0 : (0 : Addr) ≠ a := fun e => ha e.symm
  cases op with
  | Create ptr =>
    simp only [Op.brings, decide_eq_false_iff_not] at hop
    simp only [step] at hstep
    split at hstep
    · cases hstep
      unfold Create ctor_raw harz_new
      by_cases hp : ptr = 0
      · simp only [hp, ne_eq, not_true_eq_false, if_false]
        exact acquire_absent (construct_absent ha hl) _ h0
      · simp only [ne_eq, hp, not_false_eq_true, if_true]
        exact acquire_absent (construct_absent (s := { s with live := ptr :: s.live }) ha hl) _ hop
    · cases hstep
  | FromRaw p =>
    simp only [Op.brings, decide_eq_false_iff_not] at hop
    simp only [step] at hstep
    split at hstep
    · cases hstep
      exact acquire_absent (construct_absent ha hl) _ hop
    · cases hstep
  | Copy o =>
    simp only [step] at hstep
    split at hstep
    · cases hstep
      exact acquire_absent (construct_absent ha hl) _ (Get_absent ha hl o)
    · cases hstep
  | Promote u =>
    simp only [Op.brings, decide_eq_false_iff_not] at hop
    simp only [step] at hstep
    split at hstep
    · cases hstep
      apply acquire_absent (construct_absent ha hl)
      unfold UniqueMemoryHandle.RetrieveResourse
      split
      · exact h0
      · exact hop
    · cases hstep
  | Move o =>
    simp only [step] at hstep
    split at hstep
    · cases hstep
      exact release_absent ha (acquire_absent (construct_absent ha hl) _ (Get_absent ha hl o)) _
    · cases hstep
  | Release h =>
    simp only [step] at hstep
    split at hstep
    · cases hstep
      exact release_absent ha hl h
    · cases hstep
  | Destroy h =>
    simp only [step] at hstep
    split at hstep
    · cases hstep
      exact dtor_absent ha hl h
    · cases hstep
  | CopyAssign h o =>
    simp only [step] at hstep
    split at hstep
    · cases hstep
      unfold assign_copy
      split
      · exact acquire_absent (guarded_absent ha hl h) _ (Get_absent ha (guarded_absent ha hl h) o)
      · exact hl
    · cases hstep
  | MoveAssign h o =>
    simp only [step] at hstep
    split at hstep
    · cases hstep
      unfold assign_move
      split
      · exact release_absent ha
          (acquire_absent (guarded_absent ha hl h) _ (Get_absent ha (guarded_absent ha hl h) o)) _
      · exact hl
    · cases hstep
  | Reset h p =>
    simp only [Op.brings, decide_eq_false_iff_not] at hop
    simp only [step] at hstep
    split at hstep
    · cases hstep
      unfold Reset
      split
      · exact hl
      · exact acquire_absent (guarded_absent ha hl h) _ hop
    · cases hstep
  | ResetHandle h o =>
    simp only [step] at hstep
    split at hstep
    · cases hstep
      have hc : some a ∉ (ctor_copy s o).1.shared :=
        acquire_absent (construct_absent ha hl) _ (Get_absent ha hl o)
      unfold Reset_handle
      simp only
      split
      · exact dtor_absent ha hc _
      · exact dtor_absent ha
          (acquire_absent (guarded_absent ha hc h) _ (Get_absent ha (guarded_absent ha hc h) _)) _
    · cases hstep
  | GetWeak h =>
    simp only [step] at hstep
    split at hstep
    · cases hstep
      exact dtor_absent ha (acquire_absent (construct_absent ha hl) _ (Get_absent ha hl h)) _
    · cases hstep

end SharedMemoryHandle

theorem run_keeps_absent {a : Addr} (ha : a ≠ 0) (ops : List Op) : ∀ {s s1 : State},
    some a ∉ s.shared → (∀ op ∈ ops, Op.brings a op = false) → run s ops = some s1 →
    some a ∉ s1.shared := by
  induction ops with
  | nil =>
    intro s s1 hl _ hrun
    simp [run] at hrun
    subst hrun
    exact hl
  | cons op ops ih =>
    intro s s1 hl hops hrun
    simp only [run] at hrun
    cases hstep : step s op with
    | none => simp [hstep] at hrun
    | some s2 =>
      simp only [hstep] at hrun
      exact ih (SharedMemoryHandle.step_keeps_absent op ha hl (hops op (by simp)) hstep)
        (fun o ho => hops o (by simp [ho])) hrun

/-- Under the invariant, an address that no shared handle stores is invalid for a weak
handle. -/
theorem weak_invalid_of_absent {s : State} {a : Addr} (hinv : Inv s) (hl : some a ∉ s.shared) :
    WeakMemoryHandle.IsValid s a = false := by
  have hz := (holders_eq_zero_iff_not_mem a s.shared).mpr hl
  have hta := hinv.1 a
  simp only [hz, or_true, if_true] at hta
  simp [WeakMemoryHandle.IsValid, WeakMemoryHandle.CheckRefCount, RefMapType.find, hta]

/-! ## The exclusive handle -/

namespace UniqueMemoryHandle

theorem RetrieveResourse_eq (a : Addr) : RetrieveResourse a = (a, 0) := by
  unfold RetrieveResourse IsValid
  by_cases ha : a = 0
  · simp [ha]
  · simp [ha]

theorem Release_of_null (s : State) : Release s 0 = (s, 0) := by
  simp [Release, ReleaseResourseChecked]

theorem Release_valid (s : State) {d : Addr} (hd : d ≠ 0) :
    Release s d = (harz_delete s d, 0) := by
  simp [Release, ReleaseResourseChecked, hd]

theorem harz_delete_fields (s : State) {d : Addr} (hd : d ≠ 0) :
    (harz_delete s d).deleted = s.deleted ++ [d]
      ∧ (harz_delete s d).live = s.live.filter (fun x => x ≠ d)
      ∧ (harz_delete s d).RefMap = s.RefMap
      ∧ (harz_delete s d).asserts = s.asserts
      ∧ (harz_delete s d).shared = s.shared := by
  simp [harz_delete, hd]

theorem AcquireDataToHandle_null (s : State) (d : Addr) : AcquireDataToHandle s d 0 = (s, d) := by
  simp [AcquireDataToHandle]

theorem AcquireDataToHandle_fresh (s : State) {p : Addr} (hp : p ≠ 0) :
    AcquireDataToHandle s 0 p = (s, p) := by
  have h0 : ¬ (0 = p) := fun e => hp e.symm
  simp [AcquireDataToHandle, hp, h0, Release_of_null]

theorem AcquireDataToHandle_other (s : State) {d p : Addr} (hp : p ≠ 0) (hdp : d ≠ p) :
    AcquireDataToHandle s d p = ((Release s d).1, p) := by
  simp [AcquireDataToHandle, hp, hdp]

theorem ctor_move_eq (s : State) (a : Addr) : ctor_move s a = (s, a, 0) := by
  unfold ctor_move
  rw [RetrieveResourse_eq]
  by_cases ha : a = 0
  · subst ha
    simp [AcquireDataToHandle_null]
  · simp [AcquireDataToHandle_fresh s ha]

end UniqueMemoryHandle

namespace UniqueMemoryHandle

theorem dtor_asserts (s : State) (d : Addr) : (dtor s d).asserts = s.asserts := by
  unfold dtor IsValid
  by_cases hd : d = 0
  · simp [hd]
  · simp [hd, Release_valid s hd, harz_delete]

theorem Release_asserts (s : State) (d : Addr) : (Release s d).1.asserts = s.asserts := by
  by_cases hd : d = 0
  · subst hd
    rw [Release_of_null]
  · rw [Release_valid s hd]
    simp [harz_delete, hd]

theorem Acquire_keeps_asserts (s : State) (d p : Addr) :
    (AcquireDataToHandle s d p).1.asserts = s.asserts := by
  unfold AcquireDataToHandle
  split
  · rfl
  · split
    · rfl
    · exact Release_asserts s d

end UniqueMemoryHandle

/-! ## Exclusive ownership through the operations -/

theorem slotData_of_slot {l : List (Option Addr)} {h : Nat} {d : Addr}
    (hs : l[h]? = some (some d)) : slotData l h = d := by
  simp [slotData, hs]

theorem slotLive_iff (l : List (Option Addr)) (j : Nat) :
    slotLive l j = true ↔ ∃ d, l[j]? = some (some d) := by
  unfold slotLive
  cases hj : l[j]? with
  | none => simp
  | some x => cases x <;> simp

theorem two_slots_two_holders {l : List (Option Addr)} {i j : Nat} {a : Addr} (hij : i ≠ j)
    (hi : l[i]? = some (some a)) (hj : l[j]? = some (some a)) : 2 ≤ holders a l := by
  have h1 := holders_set a l i (some a) none hi
  have hj2 : (l.set i none)[j]? = some (some a) := by
    rw [List.getElem?_set_ne hij]
    exact hj
  have h2 := holders_pos a (l.set i none) j hj2
  simp at h1
  omega

theorem mem_filter_ne {live : List Addr} {a b : Addr} (ha : a ∈ live) (hab : a ≠ b) :
    a ∈ live.filter (fun x => x ≠ b) := by
  simp [List.mem_filter, ha, hab]

/-- A handle gives its value up: release or destruction. -/
theorem Exclusive_release {l : List (Option Addr)} {live : List Addr} {h : Nat} {b : Addr}
    (hex : Exclusive l live) (hs : l[h]? = some (some b)) (y : Option Addr)
    (hy : y = some 0 ∨ y = none) :
    Exclusive (l.set h y) (if b = 0 then live else live.filter (fun x => x ≠ b)) := by
  intro a ha
  obtain ⟨h1, h2⟩ := hex a ha
  have hset := holders_set a l h (some b) y hs
  have h0a : ¬ (0 = a) := fun e => ha e.symm
  have hya : ¬ (y = some a) := by
    rcases hy with hy | hy
    · rw [hy]; simpa using h0a
    · rw [hy]; simp
  simp only [Option.some.injEq, hya, if_false, Nat.add_zero] at hset
  by_cases hba : b = a
  · subst hba
    simp only [if_true] at hset
    refine ⟨by omega, fun hpos => ?_⟩
    omega
  · simp only [hba, if_false, Nat.add_zero] at hset
    refine ⟨by omega, fun hpos => ?_⟩
    have hlive := h2 (by omega)
    split
    · exact hlive
    · exact mem_filter_ne hlive (fun e => hba e.symm)

/-- A slot is rewritten with what it holds. -/
theorem Exclusive_set_same {l : List (Option Addr)} {live : List Addr} {h : Nat}
    {x : Option Addr} (hex : Exclusive l live) (hs : l[h]? = some x) :
    Exclusive (l.set h x) live := by
  intro a ha
  have hset := holders_set a l h x x hs
  have : holders a (l.set h x) = holders a l := by omega
  rw [this]
  exact hex a ha

/-- A handle that stores `b` takes a freshly allocated `p` and gives `b` up. -/
theorem Exclusive_replace_fresh {l : List (Option Addr)} {live : List Addr} {h : Nat}
    {b p : Addr} (hex : Exclusive l live) (hs : l[h]? = some (some b)) (hp : p ≠ 0)
    (hfresh : p ∉ live) :
    Exclusive (l.set h (some p))
      (if b = 0 then p :: live else (p :: live).filter (fun x => x ≠ b)) := by
  have hp0 : holders p l = 0 := by
    by_contra hne
    exact hfresh ((hex p hp).2 (by omega))
  have hbp : b ≠ p := by
    intro e
    subst e
    have := holders_pos b l h hs
    omega
  intro a ha
  obtain ⟨h1, h2⟩ := hex a ha
  have hset := holders_set a l h (some b) (some p) hs
  simp only [Option.some.injEq] at hset
  by_cases hap : a = p
  · subst hap
    have hba : ¬ (b = a) := hbp
    simp only [hba, if_false, if_true, Nat.add_zero] at hset
    refine ⟨by omega, fun _ => ?_⟩
    split
    · simp
    · exact mem_filter_ne (by simp) (fun e => hbp e.symm)
  · have hpa : ¬ (p = a) := fun e => hap e.symm
    simp only [hpa, if_false, Nat.add_zero] at hset
    by_cases hba : b = a
    · subst hba
      simp only [if_true] at hset
      refine ⟨by omega, fun hpos => ?_⟩
      omega
    · simp only [hba, if_false, Nat.add_zero] at hset
      refine ⟨by omega, fun hpos => ?_⟩
      have hlive := h2 (by omega)
      split
      · simp [hlive]
      · exact mem_filter_ne (by simp [hlive]) (fun e => hba e.symm)

/-- A new handle on a freshly allocated value, or a new null handle. -/
theorem Exclusive_append {l : List (Option Addr)} {live : List Addr} {p : Addr}
    (hex : Exclusive l live) (hfresh : p = 0 ∨ p ∉ live) :
    Exclusive (l ++ [some p]) (if p = 0 then live else p :: live) := by
  intro a ha
  obtain ⟨h1, h2⟩ := hex a ha
  have happ : holders a (l ++ [some p]) = holders a l + (if p = a then 1 else 0) := by
    simp [holders_append, holders]
  by_cases hpa : p = a
  · subst hpa
    have hp0 : holders p l = 0 := by
      by_contra hne
      rcases hfresh with hf | hf
      · exact ha hf
      · exact hf (h2 (by omega))
    rw [happ]
    simp only [if_true, ha, if_false]
    exact ⟨by omega, fun _ => by simp⟩
  · rw [happ]
    simp only [hpa, if_false, Nat.add_zero]
    refine ⟨h1, fun hpos => ?_⟩
    split
    · exact h2 hpos
    · simp [h2 hpos]

/-- The value of the handle `o` moves to a new handle. -/
theorem Exclusive_move_new {l : List (Option Addr)} {live : List Addr} {o : Nat} {d : Addr}
    (hex : Exclusive l live) (ho : l[o]? = some (some d)) :
    Exclusive (l.set o (some 0) ++ [some d]) live := by
  intro a ha
  have h0a : ¬ (0 = a) := fun e => ha e.symm
  have hset := holders_set a l o (some d) (some 0) ho
  simp only [Option.some.injEq, h0a, if_false, Nat.add_zero] at hset
  have happ : holders a (l.set o (some 0) ++ [some d])
      = holders a (l.set o (some 0)) + (if d = a then 1 else 0) := by
    simp [holders_append, holders]
  rw [happ, hset]
  exact hex a ha

/-- The value of the handle `o` moves to the distinct handle `h`, which gives its own up. -/
theorem Exclusive_move_into {l : List (Option Addr)} {live : List Addr} {h o : Nat}
    {b d : Addr} (hex : Exclusive l live) (hs : l[h]? = some (some b))
    (ho : l[o]? = some (some d)) (hne : h ≠ o) :
    Exclusive ((l.set o (some 0)).set h (some d))
      (if b = 0 then live else live.filter (fun x => x ≠ b)) := by
  intro a ha
  obtain ⟨h1, h2⟩ := hex a ha
  have h0a : ¬ (0 = a) := fun e => ha e.symm
  have hset1 := holders_set a l o (some d) (some 0) ho
  simp only [Option.some.injEq, h0a, if_false, Nat.add_zero] at hset1
  have hs1 : (l.set o (some 0))[h]? = some (some b) := by
    rw [List.getElem?_set_ne (fun e => hne e.symm)]
    exact hs
  have hset2 := holders_set a (l.set o (some 0)) h (some b) (some d) hs1
  simp only [Option.some.injEq] at hset2
  by_cases hba : b = a
  · subst hba
    simp only [if_true] at hset2
    refine ⟨by omega, fun hpos => ?_⟩
    omega
  · simp only [hba, if_false, Nat.add_zero] at hset2
    refine ⟨by omega, fun hpos => ?_⟩
    have hlive := h2 (by omega)
    split
    · exact hlive
    · exact mem_filter_ne hlive (fun e => hba e.symm)

/-- The value of a handle moves out and back in. -/
theorem Exclusive_move_back {l : List (Option Addr)} {live : List Addr} {h : Nat} {d : Addr}
    (hex : Exclusive l live) (hs : l[h]? = some (some d)) (x : Addr) (hx : x = 0 ∨ x = d) :
    Exclusive ((l.set h (some 0)).set h (some x)) live := by
  intro a ha
  obtain ⟨h1, h2⟩ := hex a ha
  have h0a : ¬ (0 = a) := fun e => ha e.symm
  have hset1 := holders_set a l h (some d) (some 0) hs
  simp only [Option.some.injEq, h0a, if_false, Nat.add_zero] at hset1
  have hs1 : (l.set h (some 0))[h]? = some (some 0) := slot_set_self _ ⟨d, hs⟩
  have hset2 := holders_set a (l.set h (some 0)) h (some 0) (some x) hs1
  simp only [Option.some.injEq, h0a, if_false, Nat.add_zero] at hset2
  rcases hx with hx | hx
  · subst hx
    simp only [h0a, if_false, Nat.add_zero] at hset2
    by_cases hda : d = a
    · simp only [hda, if_true] at hset1
      exact ⟨by omega, fun hpos => by omega⟩
    · simp only [hda, if_false, Nat.add_zero] at hset1
      exact ⟨by omega, fun hpos => h2 (by omega)⟩
  · subst hx
    exact ⟨by omega, fun hpos => h2 (by omega)⟩

namespace UniqueMemoryHandle

theorem Release_live (s : State) (b : Addr) :
    (Release s b).1.live = (if b = 0 then s.live else s.live.filter (fun x => x ≠ b))
      ∧ (Release s b).2 = 0 := by
  by_cases hb : b = 0
  · subst hb
    simp [Release_of_null]
  · simp [Release_valid s hb, harz_delete, hb]

theorem dtor_live (s : State) (b : Addr) :
    (dtor s b).live = (if b = 0 then s.live else s.live.filter (fun x => x ≠ b)) := by
  by_cases hb : b = 0
  · subst hb
    simp [dtor, IsValid]
  · simp [dtor, IsValid, Release_valid s hb, harz_delete, hb]

theorem assign_move_eq (s : State) (b d : Addr) :
    assign_move s b d = ((Release s b).1, d, 0) := by
  unfold assign_move
  rw [RetrieveResourse_eq]
  by_cases hb : b = 0
  · subst hb
    have hv : IsValid 0 = false := by simp [IsValid]
    simp only [hv, Bool.false_eq_true, if_false, Release_of_null]
    by_cases hd : d = 0
    · subst hd
      simp [AcquireDataToHandle_null]
    · simp [AcquireDataToHandle_fresh s hd]
  · have hv : IsValid b = true := by simp [IsValid, hb]
    simp only [hv, if_true, Release_valid s hb]
    by_cases hd : d = 0
    · subst hd
      simp [AcquireDataToHandle_null]
    · simp [AcquireDataToHandle_fresh _ hd]

/-- `Reset` from a handle that stores another address: release, then adopt. -/
theorem Reset_handle_ne (s : State) {b d : Addr} (hbd : b ≠ d) :
    Reset_handle s b d = ((Release s b).1, d, 0) := by
  unfold Reset_handle
  simp only [ctor_move_eq, hbd, if_false]
  by_cases hd : d = 0
  · subst hd
    have hv : IsValid 0 = false := by simp [IsValid]
    have hr := (Release_live s b).2
    simp only [hv, if_true]
    simp [dtor, hv, hr]
  · have hv : IsValid d = true := by simp [IsValid, hd]
    have hv0 : IsValid 0 = false := by simp [IsValid]
    simp only [hv, Bool.true_eq_false, if_false, RetrieveResourse_eq]
    rw [AcquireDataToHandle_other s hd hbd]
    simp [dtor, hv0]

/-- `Reset` of a null handle from a null handle: only the error is reported. -/
theorem Reset_handle_null (s : State) :
    Reset_handle s 0 0 = ({ s with asserts := s.asserts + 1 }, 0, 0) := by
  have hv0 : IsValid 0 = false := by simp [IsValid]
  simp [Reset_handle, ctor_move_eq, dtor, hv0]

end UniqueMemoryHandle

theorem stepUnique_preserves_exclusive {u u1 : UniqueState} (op : UniqueOp)
    (hex : Exclusive u.unique u.mem.live) (hstep : stepUnique u op = some u1) :
    Exclusive u1.unique u1.mem.live := by
  have hmove : ∀ o : Nat, slotLive u.unique o = true →
      Exclusive (u.unique.set o
          (some (UniqueMemoryHandle.ctor_move u.mem (slotData u.unique o)).2.2)
        ++ [some (UniqueMemoryHandle.ctor_move u.mem (slotData u.unique o)).2.1])
        (UniqueMemoryHandle.ctor_move u.mem (slotData u.unique o)).1.live := by
    intro o hc
    obtain ⟨d, hd⟩ := (slotLive_iff _ _).mp hc
    rw [slotData_of_slot hd, UniqueMemoryHandle.ctor_move_eq]
    exact Exclusive_move_new hex hd
  cases op with
  | Create ptr =>
    simp only [stepUnique] at hstep
    split at hstep
    · rename_i hc
      cases hstep
      simp only
      by_cases hp : ptr = 0
      · subst hp
        have hcr : UniqueMemoryHandle.Create u.mem 0 = (u.mem, 0) := by
          simp [UniqueMemoryHandle.Create, UniqueMemoryHandle.ctor_raw, harz_new,
            UniqueMemoryHandle.AcquireDataToHandle_null]
        rw [hcr]
        simpa using Exclusive_append (p := 0) hex (Or.inl rfl)
      · have hcr : UniqueMemoryHandle.Create u.mem ptr
            = ({ u.mem with live := ptr :: u.mem.live }, ptr) := by
          simp [UniqueMemoryHandle.Create, UniqueMemoryHandle.ctor_raw, harz_new, hp,
            UniqueMemoryHandle.AcquireDataToHandle_fresh _ hp]
        rw [hcr]
        simpa [hp] using Exclusive_append (p := ptr) hex hc
    · cases hstep
  | Move o =>
    simp only [stepUnique] at hstep
    split at hstep
    · rename_i hc
      cases hstep
      exact hmove o hc
    · cases hstep
  | MoveLvalue o =>
    simp only [stepUnique] at hstep
    split at hstep
    · rename_i hc
      cases hstep
      exact hmove o hc
    · cases hstep
  | MoveAssign h o =>
    simp only [stepUnique] at hstep
    split at hstep
    · rename_i hc
      split at hstep
      · rename_i hne
        cases hstep
        obtain ⟨b, hb⟩ := (slotLive_iff _ _).mp hc.1
        obtain ⟨d, hd⟩ := (slotLive_iff _ _).mp hc.2
        simp only [slotData_of_slot hb, slotData_of_slot hd, UniqueMemoryHandle.assign_move_eq]
        rw [(UniqueMemoryHandle.Release_live u.mem b).1]
        exact Exclusive_move_into hex hb hd hne
      · cases hstep
        exact hex
    · cases hstep
  | ResetHandle h o =>
    simp only [stepUnique] at hstep
    split at hstep
    · rename_i hc
      cases hstep
      obtain ⟨b, hb⟩ := (slotLive_iff _ _).mp hc.1
      obtain ⟨d, hd⟩ := (slotLive_iff _ _).mp hc.2
      simp only [slotData_of_slot hd, UniqueMemoryHandle.RetrieveResourse_eq]
      by_cases hho : h = o
      · subst hho
        have hbd : b = d := by
          rw [hb] at hd
          simpa using hd
        subst hbd
        have hm : slotData (u.unique.set h (some 0)) h = 0 :=
          slotData_of_slot (slot_set_self _ ⟨b, hb⟩)
        rw [hm]
        by_cases hb0 : b = 0
        · subst hb0
          rw [UniqueMemoryHandle.Reset_handle_null]
          exact Exclusive_move_back hex hb 0 (Or.inl rfl)
        · rw [UniqueMemoryHandle.Reset_handle_ne u.mem (fun e => hb0 e.symm),
            UniqueMemoryHandle.Release_of_null]
          exact Exclusive_move_back hex hb b (Or.inr rfl)
      · have hm : slotData (u.unique.set o (some 0)) h = b := by
          apply slotData_of_slot
          rw [List.getElem?_set_ne (fun e => hho e.symm)]
          exact hb
        rw [hm]
        by_cases hbd : b = d
        · subst hbd
          have hb0 : b = 0 := by
            by_contra hne
            have h2 := two_slots_two_holders hho hb hd
            have h1 := (hex b hne).1
            omega
          subst hb0
          rw [UniqueMemoryHandle.Reset_handle_null]
          simpa using Exclusive_move_into hex hb hd hho
        · rw [UniqueMemoryHandle.Reset_handle_ne u.mem hbd]
          simp only
          rw [(UniqueMemoryHandle.Release_live u.mem b).1]
          exact Exclusive_move_into hex hb hd hho
    · cases hstep
  | ResetNew h ptr =>
    simp only [stepUnique] at hstep
    split at hstep
    · rename_i hc
      cases hstep
      obtain ⟨b, hb⟩ := (slotLive_iff _ _).mp hc.1
      simp only [slotData_of_slot hb]
      by_cases hp : ptr = 0
      · subst hp
        have hrn : UniqueMemoryHandle.ResetNew u.mem b 0 = (u.mem, b) := by
          simp [UniqueMemoryHandle.ResetNew, harz_new,
            UniqueMemoryHandle.AcquireDataToHandle_null]
        rw [hrn]
        exact Exclusive_set_same hex hb
      · have hfresh : ptr ∉ u.mem.live := by
          rcases hc.2 with hc2 | hc2
          · exact absurd hc2 hp
          · exact hc2
        have hbp : b ≠ ptr := by
          intro e
          subst e
          have hpos := holders_pos b u.unique h hb
          exact hfresh ((hex b hp).2 hpos)
        have hrn : UniqueMemoryHandle.ResetNew u.mem b ptr
            = ((UniqueMemoryHandle.Release { u.mem with live := ptr :: u.mem.live } b).1,
                ptr) := by
          simp only [UniqueMemoryHandle.ResetNew, harz_new, ne_eq, hp, not_false_eq_true,
            if_true]
          rw [UniqueMemoryHandle.AcquireDataToHandle_other _ hp hbp]
        rw [hrn]
        simp only
        rw [(UniqueMemoryHandle.Release_live _ b).1]
        exact Exclusive_replace_fresh hex hb hp hfresh
    · cases hstep
  | Release h =>
    simp only [stepUnique] at hstep
    split at hstep
    · rename_i hc
      cases hstep
      obtain ⟨b, hb⟩ := (slotLive_iff _ _).mp hc
      simp only [slotData_of_slot hb]
      rw [(UniqueMemoryHandle.Release_live u.mem b).1, (UniqueMemoryHandle.Release_live u.mem b).2]
      exact Exclusive_release hex hb (some 0) (Or.inl rfl)
    · cases hstep
  | Destroy h =>
    simp only [stepUnique] at hstep
    split at hstep
    · rename_i hc
      cases hstep
      obtain ⟨b, hb⟩ := (slotLive_iff _ _).mp hc
      simp only [slotData_of_slot hb]
      rw [UniqueMemoryHandle.dtor_live]
      exact Exclusive_release hex hb none (Or.inr rfl)
    · cases hstep

theorem runUnique_preserves_exclusive (ops : List UniqueOp) : ∀ {u u1 : UniqueState},
    Exclusive u.unique u.mem.live → runUnique u ops = some u1 →
    Exclusive u1.unique u1.mem.live := by
  induction ops with
  | nil =>
    intro u u1 hex hrun
    simp [runUnique] at hrun
    subst hrun
    exact hex
  | cons op ops ih =>
    intro u u1 hex hrun
    simp only [runUnique] at hrun
    cases hstep : stepUnique u op with
    | none => simp [hstep] at hrun
    | some u2 =>
      simp only [hstep] at hrun
      exact ih (stepUnique_preserves_exclusive op hex hstep) hrun

/-! ## An address that comes back -/

/-- Under the invariant, a non-null address that some shared handle stores is valid for a
weak handle. -/
theorem weak_valid_of_present {s : State} {a : Addr} (hinv : Inv s) (ha : a ≠ 0)
    (hl : some a ∈ s.shared) : WeakMemoryHandle.IsValid s a = true := by
  have hz : holders a s.shared ≠ 0 := fun e => (holders_eq_zero_iff_not_mem a s.shared).mp e hl
  have hta := hinv.1 a
  simp only [ha, hz, or_self, if_false] at hta
  have hpos : 0 < holders a s.shared := Nat.pos_of_ne_zero hz
  simp [WeakMemoryHandle.IsValid, WeakMemoryHandle.CheckRefCount, RefMapType.find, hta, ha, hpos]

/-- An operation that brings `a` in leaves `a` stored by a shared handle. -/
theorem step_brings_present {a : Addr} {s s1 : State} (op : Op) (ha : a ≠ 0)
    (hop : Op.brings a op = true) (hstep : step s op = some s1) : some a ∈ s1.shared := by
  have hnew : some a ∈ (SharedMemoryHandle.AcquireDataToHandle (SharedMemoryHandle.construct s)
      s.shared.length a).shared := by
    rw [(SharedMemoryHandle.construct_acquire (s := s) ha).1]
    simp
  cases op with
  | Create ptr =>
    simp only [Op.brings, decide_eq_true_eq] at hop
    subst hop
    simp only [step] at hstep
    split at hstep
    · cases hstep
      rw [(SharedMemoryHandle.Create_effect (s := s) ha).2.1]
      simp
    · cases hstep
  | FromRaw p =>
    simp only [Op.brings, decide_eq_true_eq] at hop
    subst hop
    simp only [step] at hstep
    split at hstep
    · cases hstep
      exact hnew
    · cases hstep
  | Promote u =>
    simp only [Op.brings, decide_eq_true_eq] at hop
    subst hop
    simp only [step] at hstep
    split at hstep
    · cases hstep
      simp only [SharedMemoryHandle.ctor_unique, UniqueMemoryHandle.RetrieveResourse_eq]
      exact hnew
    · cases hstep
  | Reset h p =>
    simp only [Op.brings, decide_eq_true_eq] at hop
    subst hop
    simp only [step] at hstep
    split at hstep
    · rename_i hc
      cases hstep
      obtain ⟨d, hd⟩ := (isLive_iff _ _).mp hc
      have hget := SharedMemoryHandle.Get_of_slot hd
      by_cases hdp : d = p
      · subst hdp
        simp only [SharedMemoryHandle.Reset, hget, if_true]
        exact List.getElem?_mem hd
      · simp only [SharedMemoryHandle.Reset, hget, hdp, if_false]
        have hmid : ∃ e, (if SharedMemoryHandle.IsValid s h = true
              then SharedMemoryHandle.Release s h else s).shared[h]? = some (some e)
            ∧ e ≠ p := by
          split
          · refine ⟨0, ?_, fun e => ha e.symm⟩
            rw [SharedMemoryHandle.Release_shared]
            exact slot_set_self _ ⟨d, hd⟩
          · exact ⟨d, hd, hdp⟩
        obtain ⟨e, he, hep⟩ := hmid
        have hge : SharedMemoryHandle.Get (if SharedMemoryHandle.IsValid s h = true
            then SharedMemoryHandle.Release s h else s) h ≠ p := by
          rw [SharedMemoryHandle.Get_of_slot he]
          exact hep
        rw [SharedMemoryHandle.AcquireDataToHandle_shared, if_neg (not_or.mpr ⟨ha, hge⟩)]
        exact List.getElem?_mem (slot_set_self _ ⟨e, he⟩)
    · cases hstep
  | Copy o => simp [Op.brings] at hop
  | CopyAssign h o => simp [Op.brings] at hop
  | Move o => simp [Op.brings] at hop
  | MoveAssign h o => simp [Op.brings] at hop
  | ResetHandle h o => simp [Op.brings] at hop
  | Release h => simp [Op.brings] at hop
  | Destroy h => simp [Op.brings] at hop
  | GetWeak h => simp [Op.brings] at hop

/-! ## The claims -/

/-- C1: in every state reached from the empty table by shared handle operations (Create,
construction from a raw address, copy and move construction and assignment, promotion,
Reset, Release, destruction), a non-null address has a table entry if and only if some live
shared handle stores it, every stored count is the number of live shared handles that store
the address, hence at least 1, and null has no entry. -/
theorem C1_table_matches_live_handles (ops : List Op) (s : State)
    (hrun : run State.init ops = some s) (a : Addr) (ha : a ≠ 0) :
    ((∃ c, s.RefMap a = some c) ↔ ∃ h : Nat, s.shared[h]? = some (some a))
      ∧ (∀ c, s.RefMap a = some c → c = holders a s.shared ∧ 1 ≤ c)
      ∧ s.RefMap 0 = none := by
  have hinv := run_preserves_inv ops init_inv hrun
  have hta := hinv.1 a
  have ht0 := hinv.1 0
  simp only [ha, false_or] at hta
  refine ⟨⟨?_, ?_⟩, ?_, by simpa using ht0⟩
  · rintro ⟨c, hc⟩
    by_contra hno
    have hz : holders a s.shared = 0 :=
      (holders_eq_zero_iff a s.shared).mpr (fun i hi => hno ⟨i, hi⟩)
    rw [hc] at hta
    simp [hz] at hta
  · rintro ⟨h, hh⟩
    have hpos := holders_pos a s.shared h hh
    have hz : holders a s.shared ≠ 0 := by omega
    exact ⟨holders a s.shared, by simpa [hz] using hta⟩
  · intro c hc
    rw [hc] at hta
    by_cases hz : holders a s.shared = 0
    · simp [hz] at hta
    · simp only [hz, if_false, Option.some.injEq] at hta
      exact ⟨hta, by omega⟩

/-- C1 at a concrete run: a value created at address 5 and its handle copied once. -/
theorem C1_table_matches_live_handles_witness :
    ∃ s, run State.init [Op.Create 5, Op.Copy 0] = some s ∧ (5 : Addr) ≠ 0
      ∧ ((∃ c, s.RefMap 5 = some c) ↔ ∃ h : Nat, s.shared[h]? = some (some 5))
      ∧ (∀ c, s.RefMap 5 = some c → c = holders 5 s.shared ∧ 1 ≤ c)
      ∧ s.RefMap 0 = none :=
  ⟨_, rfl, by decide, C1_table_matches_live_handles [Op.Create 5, Op.Copy 0] _ rfl 5 (by decide)⟩

/-- C3: when the allocation succeeds (`ptr` is not null) and the new address has no entry yet,
`SharedMemoryHandle::Create` returns a new handle that stores `ptr` and is valid, the count of
`ptr` is exactly 1, and the entries of all other addresses are unchanged. -/
theorem C3_create_gives_count_one (s : State) (ptr : Addr) (hptr : ptr ≠ 0)
    (hfresh : s.RefMap ptr = none) :
    (SharedMemoryHandle.Create s ptr).2 = s.shared.length
      ∧ (SharedMemoryHandle.Create s ptr).1.shared[(SharedMemoryHandle.Create s ptr).2]?
          = some (some ptr)
      ∧ SharedMemoryHandle.Get (SharedMemoryHandle.Create s ptr).1
          (SharedMemoryHandle.Create s ptr).2 = ptr
      ∧ SharedMemoryHandle.IsValid (SharedMemoryHandle.Create s ptr).1
          (SharedMemoryHandle.Create s ptr).2 = true
      ∧ (SharedMemoryHandle.Create s ptr).1.RefMap ptr = some 1
      ∧ ∀ b, b ≠ ptr → (SharedMemoryHandle.Create s ptr).1.RefMap b = s.RefMap b := by
  have hnew : harz_new s ptr = ({ s with live := ptr :: s.live }, ptr) := by
    simp [harz_new, hptr]
  obtain ⟨hsh, hrm, -, -, -⟩ :=
    SharedMemoryHandle.construct_acquire (s := { s with live := ptr :: s.live }) hptr
  have hslot : (SharedMemoryHandle.Create s ptr).1.shared[(SharedMemoryHandle.Create s ptr).2]?
      = some (some ptr) := by
    simp only [SharedMemoryHandle.Create, SharedMemoryHandle.ctor_raw, hnew]
    rw [hsh]
    exact SharedMemoryHandle.slot_append_new _ _
  have hcount : (SharedMemoryHandle.Create s ptr).1.RefMap ptr = some 1 := by
    simp only [SharedMemoryHandle.Create, SharedMemoryHandle.ctor_raw, hnew]
    rw [hrm]
    simp [hfresh]
  have hget := SharedMemoryHandle.Get_of_slot hslot
  refine ⟨?_, hslot, hget, ?_, hcount, ?_⟩
  · simp [SharedMemoryHandle.Create, SharedMemoryHandle.ctor_raw, hnew]
  · simp [SharedMemoryHandle.IsValid, hget, hptr, RefMapType.find, hcount]
  · intro b hb
    simp only [SharedMemoryHandle.Create, SharedMemoryHandle.ctor_raw, hnew]
    rw [hrm]
    simp [hb]

/-- C3 at a concrete input: the first value of a process is created at address 7. -/
theorem C3_create_gives_count_one_witness :
    (7 : Addr) ≠ 0 ∧ State.init.RefMap 7 = none
      ∧ (SharedMemoryHandle.Create State.init 7).1.RefMap 7 = some 1
      ∧ SharedMemoryHandle.IsValid (SharedMemoryHandle.Create State.init 7).1
          (SharedMemoryHandle.Create State.init 7).2 = true :=
  ⟨by decide, rfl,
    (C3_create_gives_count_one State.init 7 (by decide) rfl).2.2.2.2.1,
    (C3_create_gives_count_one State.init 7 (by decide) rfl).2.2.2.1⟩

/-- C4: `Release` on a shared handle `h` that stores a non-null address `a` whose count is
`c ≥ 1`: when `c > 1` the count becomes `c - 1` and nothing is finalized; when `c = 1` the
entry is erased and the value at `a` is finalized exactly once; in both cases `h` stores null
afterwards and the entries of all other addresses are unchanged. -/
theorem C4_release_decrements_or_erases (s : State) (h : Nat) (a : Addr) (c : Nat)
    (hs : s.shared[h]? = some (some a)) (ha : a ≠ 0) (hc : s.RefMap a = some c)
    (h1 : 1 ≤ c) (hlt : c < RefCountModulus) :
    (1 < c → (SharedMemoryHandle.Release s h).RefMap a = some (c - 1)
        ∧ (SharedMemoryHandle.Release s h).deleted = s.deleted)
      ∧ (c = 1 → (SharedMemoryHandle.Release s h).RefMap a = none
        ∧ (SharedMemoryHandle.Release s h).deleted = s.deleted ++ [a])
      ∧ (SharedMemoryHandle.Release s h).shared[h]? = some (some 0)
      ∧ SharedMemoryHandle.Get (SharedMemoryHandle.Release s h) h = 0
      ∧ ∀ b, b ≠ a → (SharedMemoryHandle.Release s h).RefMap b = s.RefMap b := by
  obtain ⟨hrm, hdel, -, -⟩ :=
    SharedMemoryHandle.Release_counted (SharedMemoryHandle.Get_of_slot hs) ha hc hlt
  have hslot : (SharedMemoryHandle.Release s h).shared[h]? = some (some 0) := by
    rw [SharedMemoryHandle.Release_shared]
    exact slot_set_self _ ⟨a, hs⟩
  refine ⟨?_, ?_, hslot, SharedMemoryHandle.Get_of_slot hslot, ?_⟩
  · intro hc1
    have hne : c ≠ 1 := by omega
    have hmod : (c + (RefCountModulus - 1)) % RefCountModulus = c - 1 := by
      unfold RefCountModulus at *
      omega
    refine ⟨?_, ?_⟩
    · rw [hrm]; simp [hne, hmod]
    · rw [hdel]; simp [hne]
  · intro hc1
    refine ⟨?_, ?_⟩
    · rw [hrm]; simp [hc1]
    · rw [hdel]; simp [hc1]
  · intro b hb
    rw [hrm]; simp [hb]

/-- C4 at a concrete input: the only handle on address 7 is released. -/
theorem C4_release_decrements_or_erases_witness :
    (SharedMemoryHandle.Create State.init 7).1.shared[0]? = some (some 7)
      ∧ (SharedMemoryHandle.Create State.init 7).1.RefMap 7 = some 1
      ∧ (SharedMemoryHandle.Release (SharedMemoryHandle.Create State.init 7).1 0).RefMap 7 = none
      ∧ (SharedMemoryHandle.Release (SharedMemoryHandle.Create State.init 7).1 0).deleted = [7] :=
  ⟨by decide, by decide,
    (C4_release_decrements_or_erases (SharedMemoryHandle.Create State.init 7).1 0 7 1
      (by decide) (by decide) (by decide) (by decide) (by decide)).2.1 rfl⟩

/-- C5: copy-constructing `S2` from a valid shared handle `S1` that stores `a` with count `c`
gives a new handle storing `a`, leaves `S1` storing `a`, makes the count exactly `c + 1` and
finalizes nothing.  In particular, after `Create` at a fresh address `ptr` and one copy the
count is 2, and after releasing the first handle the count is 1, the copy is still valid and
the value is not finalized. -/
theorem C5_copy_adds_one (s : State) (S1 : Nat) (a : Addr) (c : Nat)
    (hs : s.shared[S1]? = some (some a)) (ha : a ≠ 0) (hc : s.RefMap a = some c)
    (hlt : c + 1 < RefCountModulus)
    (t : State) (ptr : Addr) (hptr : ptr ≠ 0) (hfresh : t.RefMap ptr = none) :
    ((SharedMemoryHandle.ctor_copy s S1).2 ≠ S1
        ∧ (SharedMemoryHandle.ctor_copy s S1).1.shared[(SharedMemoryHandle.ctor_copy s S1).2]?
            = some (some a)
        ∧ (SharedMemoryHandle.ctor_copy s S1).1.shared[S1]? = some (some a)
        ∧ (SharedMemoryHandle.ctor_copy s S1).1.RefMap a = some (c + 1)
        ∧ (SharedMemoryHandle.ctor_copy s S1).1.deleted = s.deleted)
      ∧ ((SharedMemoryHandle.Create t ptr).1.RefMap ptr = some 1
        ∧ (SharedMemoryHandle.ctor_copy (SharedMemoryHandle.Create t ptr).1
            (SharedMemoryHandle.Create t ptr).2).1.RefMap ptr = some 2
        ∧ (SharedMemoryHandle.Release
            (SharedMemoryHandle.ctor_copy (SharedMemoryHandle.Create t ptr).1
              (SharedMemoryHandle.Create t ptr).2).1
            (SharedMemoryHandle.Create t ptr).2).RefMap ptr = some 1
        ∧ SharedMemoryHandle.IsValid
            (SharedMemoryHandle.Release
              (SharedMemoryHandle.ctor_copy (SharedMemoryHandle.Create t ptr).1
                (SharedMemoryHandle.Create t ptr).2).1
              (SharedMemoryHandle.Create t ptr).2)
            (SharedMemoryHandle.ctor_copy (SharedMemoryHandle.Create t ptr).1
              (SharedMemoryHandle.Create t ptr).2).2 = true
        ∧ (SharedMemoryHandle.Release
            (SharedMemoryHandle.ctor_copy (SharedMemoryHandle.Create t ptr).1
              (SharedMemoryHandle.Create t ptr).2).1
            (SharedMemoryHandle.Create t ptr).2).deleted = t.deleted) := by
  constructor
  · obtain ⟨h1, h2, h3, h4, -, -⟩ := SharedMemoryHandle.ctor_copy_effect hs ha
    have hmod : (c + 1) % RefCountModulus = c + 1 := Nat.mod_eq_of_lt hlt
    refine ⟨?_, ?_, ?_, ?_, h4⟩
    · rw [h1]
      exact fun e => Nat.lt_irrefl _ (e ▸ slot_lt hs)
    · rw [h1, h2]
      exact SharedMemoryHandle.slot_append_new _ _
    · rw [h2]
      exact SharedMemoryHandle.slot_append_old _ hs
    · rw [h3]
      simp [hc, hmod]
  · obtain ⟨c1, c2, c3, c4, -, -⟩ := SharedMemoryHandle.Create_effect (s := t) hptr
    have hcount1 : (SharedMemoryHandle.Create t ptr).1.RefMap ptr = some 1 := by
      rw [c3]; simp [hfresh]
    have hslot1 : (SharedMemoryHandle.Create t ptr).1.shared[(SharedMemoryHandle.Create t ptr).2]?
        = some (some ptr) := by
      rw [c1, c2]
      exact SharedMemoryHandle.slot_append_new _ _
    obtain ⟨d1, d2, d3, d4, -, -⟩ := SharedMemoryHandle.ctor_copy_effect hslot1 hptr
    have hcount2 : (SharedMemoryHandle.ctor_copy (SharedMemoryHandle.Create t ptr).1
        (SharedMemoryHandle.Create t ptr).2).1.RefMap ptr = some 2 := by
      rw [d3]
      simp [hcount1, RefCountModulus]
    have hslot2 : (SharedMemoryHandle.ctor_copy (SharedMemoryHandle.Create t ptr).1
        (SharedMemoryHandle.Create t ptr).2).1.shared[(SharedMemoryHandle.Create t ptr).2]?
        = some (some ptr) := by
      rw [d2]
      exact SharedMemoryHandle.slot_append_old _ hslot1
    obtain ⟨e1, e2, -, -⟩ := SharedMemoryHandle.Release_counted
      (SharedMemoryHandle.Get_of_slot hslot2) hptr hcount2 (by unfold RefCountModulus; omega)
    have hcount3 : (SharedMemoryHandle.Release
        (SharedMemoryHandle.ctor_copy (SharedMemoryHandle.Create t ptr).1
          (SharedMemoryHandle.Create t ptr).2).1
        (SharedMemoryHandle.Create t ptr).2).RefMap ptr = some 1 := by
      rw [e1]
      simp [RefCountModulus]
    have hslot3 : (SharedMemoryHandle.Release
        (SharedMemoryHandle.ctor_copy (SharedMemoryHandle.Create t ptr).1
          (SharedMemoryHandle.Create t ptr).2).1
        (SharedMemoryHandle.Create t ptr).2).shared[
          (SharedMemoryHandle.ctor_copy (SharedMemoryHandle.Create t ptr).1
            (SharedMemoryHandle.Create t ptr).2).2]? = some (some ptr) := by
      have hne : (SharedMemoryHandle.Create t ptr).2
          ≠ (SharedMemoryHandle.ctor_copy (SharedMemoryHandle.Create t ptr).1
              (SharedMemoryHandle.Create t ptr).2).2 := by
        rw [d1]
        exact fun e => Nat.lt_irrefl _ (e ▸ slot_lt hslot1)
      rw [SharedMemoryHandle.Release_shared, List.getElem?_set_ne hne, d1, d2]
      exact SharedMemoryHandle.slot_append_new _ _
    refine ⟨hcount1, hcount2, hcount3, ?_, ?_⟩
    · simp [SharedMemoryHandle.IsValid, SharedMemoryHandle.Get_of_slot hslot3, hptr,
        RefMapType.find, hcount3]
    · rw [e2, d4, c4]
      simp

/-- C5 at a concrete input: the handle created at address 7 is copied. -/
theorem C5_copy_adds_one_witness :
    (SharedMemoryHandle.Create State.init 7).1.shared[0]? = some (some 7)
      ∧ (SharedMemoryHandle.Create State.init 7).1.RefMap 7 = some 1
      ∧ (SharedMemoryHandle.ctor_copy (SharedMemoryHandle.Create State.init 7).1 0).1.RefMap 7
          = some (1 + 1) :=
  ⟨by decide, by decide,
    (C5_copy_adds_one (SharedMemoryHandle.Create State.init 7).1 0 7 1 (by decide) (by decide)
      (by decide) (by decide) State.init 7 (by decide) rfl).1.2.2.2.1⟩

/-- C7: promoting an exclusive handle `U` that owns a non-null address `a` (for which the
table has no entry) to a shared handle `S` leaves `U` storing null and `S` storing `a`, makes
the count of `a` exactly 1, and neither finalizes nor constructs a value: the finalizer log
and the set of allocated values are unchanged. -/
theorem C7_promotion_transfers_ownership (s : State) (a : Addr) (ha : a ≠ 0)
    (hown : s.RefMap a = none) :
    (SharedMemoryHandle.ctor_unique s a).2.2 = 0
      ∧ (SharedMemoryHandle.ctor_unique s a).1.shared[(SharedMemoryHandle.ctor_unique s a).2.1]?
          = some (some a)
      ∧ SharedMemoryHandle.Get (SharedMemoryHandle.ctor_unique s a).1
          (SharedMemoryHandle.ctor_unique s a).2.1 = a
      ∧ (SharedMemoryHandle.ctor_unique s a).1.RefMap a = some 1
      ∧ (SharedMemoryHandle.ctor_unique s a).1.deleted = s.deleted
      ∧ (SharedMemoryHandle.ctor_unique s a).1.live = s.live := by
  have hr : UniqueMemoryHandle.RetrieveResourse a = (a, 0) := by
    simp [UniqueMemoryHandle.RetrieveResourse, UniqueMemoryHandle.IsValid, ha]
  obtain ⟨h1, h2, h3, h4, -⟩ := SharedMemoryHandle.construct_acquire (s := s) ha
  have hslot : (SharedMemoryHandle.ctor_unique s a).1.shared[
      (SharedMemoryHandle.ctor_unique s a).2.1]? = some (some a) := by
    simp only [SharedMemoryHandle.ctor_unique, hr]
    rw [h1]
    exact SharedMemoryHandle.slot_append_new _ _
  refine ⟨?_, hslot, SharedMemoryHandle.Get_of_slot hslot, ?_, ?_, ?_⟩
  · simp [SharedMemoryHandle.ctor_unique, hr]
  · simp only [SharedMemoryHandle.ctor_unique, hr]
    rw [h2]
    simp [hown]
  · simp only [SharedMemoryHandle.ctor_unique, hr]
    exact h3
  · simp only [SharedMemoryHandle.ctor_unique, hr]
    exact h4

/-- C7 at a concrete input: an exclusive handle on address 9 is promoted in a fresh process. -/
theorem C7_promotion_transfers_ownership_witness :
    (9 : Addr) ≠ 0 ∧ State.init.RefMap 9 = none
      ∧ (SharedMemoryHandle.ctor_unique State.init 9).2.2 = 0
      ∧ (SharedMemoryHandle.ctor_unique State.init 9).1.RefMap 9 = some 1 :=
  ⟨by decide, rfl,
    (C7_promotion_transfers_ownership State.init 9 (by decide) rfl).1,
    (C7_promotion_transfers_ownership State.init 9 (by decide) rfl).2.2.2.1⟩

/-- C6 fails when the destination already holds the address: with two handles on address 5
(count 2), move-assigning the first into the second leaves the count at 1, not at 2. -/
theorem C6_move_onto_sharer_counterexample :
    (SharedMemoryHandle.ctor_copy (SharedMemoryHandle.Create State.init 5).1 0).1.shared
        = [some 5, some 5]
      ∧ (SharedMemoryHandle.ctor_copy (SharedMemoryHandle.Create State.init 5).1 0).1.RefMap 5
        = some 2
      ∧ (SharedMemoryHandle.assign_move
          (SharedMemoryHandle.ctor_copy (SharedMemoryHandle.Create State.init 5).1 0).1 1 0).shared
        = [some 0, some 5]
      ∧ (SharedMemoryHandle.assign_move
          (SharedMemoryHandle.ctor_copy (SharedMemoryHandle.Create State.init 5).1 0).1 1 0).RefMap 5
        = some 1 := by
  decide

/-- C6, amended: moving a shared handle `A` that stores a non-null address `a` (count
`c ≥ 1`) into a distinct handle `B` leaves `A` storing null, `B` storing `a`, and the value
at `a` unfinalized.  When `B` is freshly move-constructed (whatever other handles exist, also
none) the count of `a` is what it was before the move.  When `B` is an existing handle that
is move-assigned to, the count is what it was before if `B` was null or held another address,
and it is `c - 1` if `B` already held `a` (so `c ≥ 2`). -/
theorem C6_move_transfers_ownership (s : State) (A : Nat) (a : Addr) (c : Nat)
    (hA : s.shared[A]? = some (some a)) (ha : a ≠ 0) (hc : s.RefMap a = some c)
    (h1 : 1 ≤ c) (hlt : c < RefCountModulus) :
    ((SharedMemoryHandle.ctor_move s A).2 ≠ A
        ∧ (SharedMemoryHandle.ctor_move s A).1.shared[A]? = some (some 0)
        ∧ (SharedMemoryHandle.ctor_move s A).1.shared[(SharedMemoryHandle.ctor_move s A).2]?
            = some (some a)
        ∧ (SharedMemoryHandle.ctor_move s A).1.RefMap a = some c
        ∧ (SharedMemoryHandle.ctor_move s A).1.deleted = s.deleted)
      ∧ (∀ (B : Nat) (b : Addr), s.shared[B]? = some (some b) → A ≠ B → (b = a → 2 ≤ c) →
        (SharedMemoryHandle.assign_move s B A).shared[A]? = some (some 0)
        ∧ (SharedMemoryHandle.assign_move s B A).shared[B]? = some (some a)
        ∧ (SharedMemoryHandle.assign_move s B A).RefMap a = some (if b = a then c - 1 else c)
        ∧ ∃ l, (SharedMemoryHandle.assign_move s B A).deleted = s.deleted ++ l ∧ a ∉ l) := by
  constructor
  · obtain ⟨k1, k2, k3, -, -⟩ := SharedMemoryHandle.construct_acquire (s := s) ha
    have hgA : SharedMemoryHandle.Get s A = a := SharedMemoryHandle.Get_of_slot hA
    have hne : s.shared.length ≠ A := fun e => Nat.lt_irrefl _ (e ▸ slot_lt hA)
    have hslotA : (SharedMemoryHandle.AcquireDataToHandle (SharedMemoryHandle.construct s)
        s.shared.length a).shared[A]? = some (some a) := by
      rw [k1]
      exact SharedMemoryHandle.slot_append_old _ hA
    have hrm : (SharedMemoryHandle.AcquireDataToHandle (SharedMemoryHandle.construct s)
        s.shared.length a).RefMap a = some ((c + 1) % RefCountModulus) := by
      rw [k2]
      simp [hc]
    obtain ⟨r1, r2⟩ := SharedMemoryHandle.Release_undoes_increment
      (SharedMemoryHandle.Get_of_slot hslotA) ha hrm h1 hlt
    simp only [SharedMemoryHandle.ctor_move, hgA]
    refine ⟨hne, ?_, ?_, r1, ?_⟩
    · rw [SharedMemoryHandle.Release_shared]
      exact slot_set_self _ ⟨a, hslotA⟩
    · rw [SharedMemoryHandle.Release_shared, List.getElem?_set_ne hne.symm, k1]
      exact SharedMemoryHandle.slot_append_new _ _
    · rw [r2, k3]
  · intro B b hB hAB hsame
    have hBA : B ≠ A := fun e => hAB e.symm
    have hgB : SharedMemoryHandle.Get s B = b := SharedMemoryHandle.Get_of_slot hB
    simp only [SharedMemoryHandle.assign_move, ne_eq, hBA, not_false_eq_true, if_true]
    by_cases hba : b = a
    · subst hba
      have hc2 : 2 ≤ c := hsame rfl
      have hv : SharedMemoryHandle.IsValid s B = true := by
        simp [SharedMemoryHandle.IsValid, hgB, ha, RefMapType.find, hc]
      obtain ⟨e1, e2, -, -⟩ := SharedMemoryHandle.Release_counted hgB ha hc hlt
      have hne : c ≠ 1 := by omega
      have hmod : (c + (RefCountModulus - 1)) % RefCountModulus = c - 1 := by
        unfold RefCountModulus at *
        omega
      have hA1 : (SharedMemoryHandle.Release s B).shared[A]? = some (some b) := by
        rw [SharedMemoryHandle.Release_shared, List.getElem?_set_ne hBA]
        exact hA
      have hB1 : (SharedMemoryHandle.Release s B).shared[B]? = some (some 0) := by
        rw [SharedMemoryHandle.Release_shared]
        exact slot_set_self _ ⟨b, hB⟩
      have hc1 : (SharedMemoryHandle.Release s B).RefMap b = some (c - 1) := by
        rw [e1]; simp [hne, hmod]
      obtain ⟨q1, q2, q3, q4⟩ := SharedMemoryHandle.acquire_then_release_source hAB hA1 hB1
        (fun e => ha e.symm) ha hc1 (by omega) (by omega)
      simp only [hv, if_true]
      refine ⟨q1, q2, by simpa using q3, [], ?_, by simp⟩
      rw [q4, e2]
      simp [hne]
    · obtain ⟨f1, f2⟩ := SharedMemoryHandle.Release_frame s B
      rw [hgB] at f1 f2
      have hab : a ≠ b := fun e => hba e.symm
      by_cases hv : SharedMemoryHandle.IsValid s B = true
      · have hA1 : (SharedMemoryHandle.Release s B).shared[A]? = some (some a) := by
          rw [SharedMemoryHandle.Release_shared, List.getElem?_set_ne hBA]
          exact hA
        have hB1 : (SharedMemoryHandle.Release s B).shared[B]? = some (some 0) := by
          rw [SharedMemoryHandle.Release_shared]
          exact slot_set_self _ ⟨b, hB⟩
        have hc1 : (SharedMemoryHandle.Release s B).RefMap a = some c := by
          rw [f1 a hab]; exact hc
        obtain ⟨q1, q2, q3, q4⟩ := SharedMemoryHandle.acquire_then_release_source hAB hA1 hB1
          (fun e => ha e.symm) ha hc1 h1 hlt
        simp only [hv, if_true]
        refine ⟨q1, q2, by simpa [hba] using q3, ?_⟩
        rcases f2 with f2 | f2
        · exact ⟨[], by rw [q4, f2]; simp, by simp⟩
        · exact ⟨[b], by rw [q4, f2], by simpa using hab⟩
      · obtain ⟨q1, q2, q3, q4⟩ := SharedMemoryHandle.acquire_then_release_source hAB hA hB
          hba ha hc h1 hlt
        simp only [hv, Bool.false_eq_true, if_false]
        exact ⟨q1, q2, by simpa [hba] using q3, [], by rw [q4]; simp, by simp⟩

/-- C6 (amended) at a concrete input: the only handle of the value at address 5 is moved
into a freshly constructed handle, and, with a second null handle present, move-assigned into
that one. -/
theorem C6_move_transfers_ownership_witness :
    (SharedMemoryHandle.Create State.init 5).1.shared[0]? = some (some 5)
      ∧ (SharedMemoryHandle.Create State.init 5).1.RefMap 5 = some 1
      ∧ (SharedMemoryHandle.ctor_move (SharedMemoryHandle.Create State.init 5).1 0).1.shared[0]?
          = some (some 0)
      ∧ (SharedMemoryHandle.ctor_move (SharedMemoryHandle.Create State.init 5).1 0).1.shared[
            (SharedMemoryHandle.ctor_move (SharedMemoryHandle.Create State.init 5).1 0).2]?
          = some (some 5)
      ∧ (SharedMemoryHandle.ctor_move (SharedMemoryHandle.Create State.init 5).1 0).1.RefMap 5
          = some 1
      ∧ (SharedMemoryHandle.assign_move
          (SharedMemoryHandle.ctor_raw (SharedMemoryHandle.Create State.init 5).1 0).1
          1 0).RefMap 5 = some (if (0 : Addr) = 5 then 1 - 1 else 1) :=
  ⟨by decide, by decide,
    (C6_move_transfers_ownership (SharedMemoryHandle.Create State.init 5).1 0 5 1
      (by decide) (by decide) (by decide) (by decide) (by decide)).1.2.1,
    (C6_move_transfers_ownership (SharedMemoryHandle.Create State.init 5).1 0 5 1
      (by decide) (by decide) (by decide) (by decide) (by decide)).1.2.2.1,
    (C6_move_transfers_ownership (SharedMemoryHandle.Create State.init 5).1 0 5 1
      (by decide) (by decide) (by decide) (by decide) (by decide)).1.2.2.2.1,
    ((C6_move_transfers_ownership
      (SharedMemoryHandle.ctor_raw (SharedMemoryHandle.Create State.init 5).1 0).1 0 5 1
      (by decide) (by decide) (by decide) (by decide) (by decide)).2 1 0
      (by decide) (by decide) (by decide)).2.2.1⟩

/-- C2: for every `N ≥ 1`, when `N` shared handles hold the same address `p` (one from
`Create` at a fresh address, the others copies of it) and they are released in any order,
the entry of `p` is still present, with the value unfinalized, after each of the first
`N - 1` releases; after the `N`th release the entry is absent and the finalizer of the value
at `p` has run exactly once, during that last release. -/
theorem C2_last_of_N_releases_finalizes (s : State) (p : Addr) (N : Nat) (order : List Nat)
    (k : Nat) (hp : p ≠ 0) (hfresh : p ∉ s.live) (hab : s.RefMap p = none) (hN : 1 ≤ N)
    (hroom : liveHandles s.shared + N ≤ handleCapacity)
    (horder : order.Perm (List.range' s.shared.length N)) (hk : k ≤ N) :
    ∃ t, run s (Op.Create p :: (List.replicate (N - 1) (Op.Copy s.shared.length)
            ++ (order.take k).map Op.Release)) = some t
      ∧ (k < N → t.RefMap p = some (N - k) ∧ t.deleted = s.deleted)
      ∧ (k = N → t.RefMap p = none ∧ t.deleted = s.deleted ++ [p]) := by
  obtain ⟨c1, c2, c3, c4, -, -⟩ := SharedMemoryHandle.Create_effect (s := s) hp
  have hstep : step s (Op.Create p) = some (SharedMemoryHandle.Create s p).1 := by
    have : liveHandles s.shared < handleCapacity := by omega
    simp [step, canConstruct, this, hfresh]
  have hcount1 : (SharedMemoryHandle.Create s p).1.RefMap p = some 1 := by
    rw [c3]; simp [hab]
  have hslot1 : (SharedMemoryHandle.Create s p).1.shared[s.shared.length]? = some (some p) := by
    rw [c2]; exact SharedMemoryHandle.slot_append_new _ _
  have hcap : handleCapacity < RefCountModulus := by
    unfold handleCapacity RefCountModulus; omega
  obtain ⟨t1, r1, r2, r3, r4⟩ := run_copies p hp s.shared.length (N - 1)
    (SharedMemoryHandle.Create s p).1 1 hslot1 hcount1 (by omega)
    (by rw [c2, liveHandles_append_some]; omega)
  have hlen : order.length = N := by
    rw [horder.length_eq]; simp
  have hnd : order.Nodup := horder.nodup_iff.mpr (List.nodup_range' _ _)
  have hall : ∀ i ∈ order, t1.shared[i]? = some (some p) := by
    intro i hi
    have hmem := (horder.mem_iff).mp hi
    rw [List.mem_range'_1] at hmem
    rw [r2, c2, List.append_assoc, List.singleton_append, ← List.replicate_succ]
    exact slot_append_replicate _ _ _ _ hmem.1 (by omega)
  have hcN : t1.RefMap p = some order.length := by
    have hadd : 1 + (N - 1) = N := by omega
    rw [r3, hlen, hadd]
  obtain ⟨t, q1, q2, q3⟩ := run_releases p hp order t1 k hnd hall hcN (by omega) (by omega)
  refine ⟨t, ?_, fun h => ?_, fun h => ?_⟩
  · simp only [run, hstep]
    rw [run_append, r1]
    exact q1
  · obtain ⟨u1, u2⟩ := q2 (by omega)
    refine ⟨by rw [u1, hlen], by rw [u2, r4, c4]⟩
  · obtain ⟨u1, u2⟩ := q3 (by omega) (by omega)
    exact ⟨u1, by rw [u2, r4, c4]⟩

/-- C2 at a concrete input: three handles on address 7, released in the order 1, 2, 0. -/
theorem C2_last_of_N_releases_finalizes_witness :
    ∃ t, run State.init (Op.Create 7 :: (List.replicate (3 - 1) (Op.Copy State.init.shared.length)
            ++ (([1, 2, 0] : List Nat).take 3).map Op.Release)) = some t
      ∧ (3 < 3 → t.RefMap 7 = some (3 - 3) ∧ t.deleted = State.init.deleted)
      ∧ (3 = 3 → t.RefMap 7 = none ∧ t.deleted = State.init.deleted ++ [7]) :=
  C2_last_of_N_releases_finalizes State.init 7 3 [1, 2, 0] 3 (by decide) (by decide) rfl
    (by decide) (by decide) (by decide) (by decide)

/-- C9: `WeakMemoryHandle::GetReference` hits its assertion if and only if the weak handle is
not valid, that is, it stores null or the table has no entry with a positive count for its
address; otherwise it returns the value at the stored address.  In particular, after
`S = Create` at a fresh address, `W = S.GetWeak()` and `S.Release()`, `W.GetReference()` hits
the assertion. -/
theorem C9_weak_get_reference_asserts_validity (s : State) (W : Addr) (t : State) (ptr : Addr)
    (hptr : ptr ≠ 0) (hfresh : t.RefMap ptr = none) :
    (WeakMemoryHandle.GetReference s W = none ↔ WeakMemoryHandle.IsValid s W = false)
      ∧ (WeakMemoryHandle.IsValid s W = false ↔ (W = 0 ∨ ¬ ∃ c, s.RefMap W = some c ∧ 0 < c))
      ∧ (WeakMemoryHandle.IsValid s W = true → WeakMemoryHandle.GetReference s W = some W)
      ∧ (SharedMemoryHandle.GetWeak (SharedMemoryHandle.Create t ptr).1
            (SharedMemoryHandle.Create t ptr).2).2 = ptr
      ∧ WeakMemoryHandle.GetReference
          (SharedMemoryHandle.Release
            (SharedMemoryHandle.GetWeak (SharedMemoryHandle.Create t ptr).1
              (SharedMemoryHandle.Create t ptr).2).1
            (SharedMemoryHandle.Create t ptr).2)
          (SharedMemoryHandle.GetWeak (SharedMemoryHandle.Create t ptr).1
            (SharedMemoryHandle.Create t ptr).2).2 = none := by
  refine ⟨?_, ?_, ?_, ?_⟩
  · unfold WeakMemoryHandle.GetReference
    cases WeakMemoryHandle.IsValid s W <;> simp
  · unfold WeakMemoryHandle.IsValid WeakMemoryHandle.CheckRefCount RefMapType.find
    by_cases hW : W = 0
    · simp [hW]
    · cases hf : s.RefMap W with
      | none => simp [hW]
      | some c => simp [hW]
  · intro hv
    simp [WeakMemoryHandle.GetReference, hv]
  · obtain ⟨c1, c2, c3, -, -, -⟩ := SharedMemoryHandle.Create_effect (s := t) hptr
    have hcount1 : (SharedMemoryHandle.Create t ptr).1.RefMap ptr = some 1 := by
      rw [c3]; simp [hfresh]
    have hslot1 : (SharedMemoryHandle.Create t ptr).1.shared[(SharedMemoryHandle.Create t ptr).2]?
        = some (some ptr) := by
      rw [c1, c2]; exact SharedMemoryHandle.slot_append_new _ _
    obtain ⟨g1, g2, -, g4⟩ := SharedMemoryHandle.GetWeak_effect hslot1
      (Or.inr ⟨hcount1, by decide, by unfold RefCountModulus; decide⟩)
    have hslot2 : (SharedMemoryHandle.GetWeak (SharedMemoryHandle.Create t ptr).1
        (SharedMemoryHandle.Create t ptr).2).1.shared[(SharedMemoryHandle.Create t ptr).2]?
        = some (some ptr) := by
      rw [g4]; exact SharedMemoryHandle.slot_append_old _ hslot1
    have hcount2 : (SharedMemoryHandle.GetWeak (SharedMemoryHandle.Create t ptr).1
        (SharedMemoryHandle.Create t ptr).2).1.RefMap ptr = some 1 := by
      rw [g2]; exact hcount1
    obtain ⟨e1, -, -, -⟩ := SharedMemoryHandle.Release_counted
      (SharedMemoryHandle.Get_of_slot hslot2) hptr hcount2 (by unfold RefCountModulus; decide)
    refine ⟨g1, ?_⟩
    rw [g1]
    simp [WeakMemoryHandle.GetReference, WeakMemoryHandle.IsValid,
      WeakMemoryHandle.CheckRefCount, RefMapType.find, e1]

/-- C9 at a concrete input: the first value of a process, at address 7. -/
theorem C9_weak_get_reference_asserts_validity_witness :
    (7 : Addr) ≠ 0 ∧ State.init.RefMap 7 = none
      ∧ WeakMemoryHandle.GetReference
          (SharedMemoryHandle.Release
            (SharedMemoryHandle.GetWeak (SharedMemoryHandle.Create State.init 7).1
              (SharedMemoryHandle.Create State.init 7).2).1
            (SharedMemoryHandle.Create State.init 7).2)
          (SharedMemoryHandle.GetWeak (SharedMemoryHandle.Create State.init 7).1
            (SharedMemoryHandle.Create State.init 7).2).2 = none :=
  ⟨by decide, rfl,
    (C9_weak_get_reference_asserts_validity State.init 0 State.init 7 (by decide) rfl).2.2.2.2⟩

/-- C8 fails when the address is used again: after the only owner of the value at address 5
is released the weak handle is invalid, and it becomes valid again as soon as the allocator
returns address 5 for a new value. -/
theorem C8_weak_resurrected_counterexample :
    (SharedMemoryHandle.GetWeak (SharedMemoryHandle.Create State.init 5).1 0).2 = 5
      ∧ ∃ s3 s4, run State.init [Op.Create 5, Op.GetWeak 0, Op.Release 0] = some s3
        ∧ WeakMemoryHandle.IsValid s3 5 = false
        ∧ step s3 (Op.Create 5) = some s4
        ∧ WeakMemoryHandle.IsValid s4 5 = true :=
  ⟨by decide, _, _, rfl, by decide, rfl, by decide⟩

/-- C8, amended: let `h` be the last shared owner of a non-null address `a` in a reachable
state (count 1); a weak handle taken from it stores `a`, is invalid right after `h` releases,
and stays invalid in every state reached afterwards by shared handle operations none of which
brings `a` back (no value created at `a`, no handle built from or reset to the raw address
`a`, no promotion of an exclusive owner of `a`).  As soon as an operation does bring `a` back,
the weak handle is valid again. -/
theorem C8_weak_stays_invalid_until_address_returns (ops0 : List Op) (s : State)
    (hreach : run State.init ops0 = some s) (h : Nat) (a : Addr)
    (hs : s.shared[h]? = some (some a)) (ha : a ≠ 0) (hlast : s.RefMap a = some 1)
    (ops : List Op) (hops : ∀ op ∈ ops, Op.brings a op = false) (s2 : State)
    (hrun : run (SharedMemoryHandle.Release s h) ops = some s2) :
    (SharedMemoryHandle.GetWeak s h).2 = a
      ∧ WeakMemoryHandle.IsValid (SharedMemoryHandle.Release s h) a = false
      ∧ WeakMemoryHandle.IsValid s2 a = false
      ∧ (∀ (op : Op) (s3 : State), Op.brings a op = true → step s2 op = some s3 →
          WeakMemoryHandle.IsValid s3 a = true) := by
  have hinv := run_preserves_inv ops0 init_inv hreach
  have hone : (1 : Nat) < RefCountModulus := by unfold RefCountModulus; decide
  obtain ⟨g1, -, -, -⟩ := SharedMemoryHandle.GetWeak_effect hs
    (Or.inr ⟨hlast, Nat.le_refl 1, hone⟩)
  have hinv1 := SharedMemoryHandle.Release_inv hinv hs
  obtain ⟨e1, -, -, -⟩ := SharedMemoryHandle.Release_counted
    (SharedMemoryHandle.Get_of_slot hs) ha hlast hone
  have hnone : (SharedMemoryHandle.Release s h).RefMap a = none := by
    rw [e1]; simp
  have habs : some a ∉ (SharedMemoryHandle.Release s h).shared := by
    rw [← holders_eq_zero_iff_not_mem]
    by_contra hz
    have hta := hinv1.1 a
    rw [hnone] at hta
    simp [ha, hz] at hta
  have hinv2 := run_preserves_inv ops hinv1 hrun
  have habs2 := run_keeps_absent ha ops habs hops hrun
  refine ⟨g1, weak_invalid_of_absent hinv1 habs, weak_invalid_of_absent hinv2 habs2, ?_⟩
  intro op s3 hop hstep
  exact weak_valid_of_present (SharedMemoryHandle.step_preserves_inv op hinv2 hstep) ha
    (step_brings_present op ha hop hstep)

/-- C8 (amended) at a concrete run: the value at address 5 is created and its only owner
released; afterwards a value is created at address 6, which leaves the weak handle invalid,
and then one at address 5 again, which makes it valid. -/
theorem C8_weak_stays_invalid_until_address_returns_witness :
    ∃ s s2 s3, run State.init [Op.Create 5] = some s
      ∧ s.shared[0]? = some (some 5) ∧ s.RefMap 5 = some 1
      ∧ run (SharedMemoryHandle.Release s 0) [Op.Create 6] = some s2
      ∧ WeakMemoryHandle.IsValid s2 5 = false
      ∧ step s2 (Op.Create 5) = some s3
      ∧ WeakMemoryHandle.IsValid s3 5 = true :=
  ⟨_, _, _, rfl, by decide, by decide, rfl,
    (C8_weak_stays_invalid_until_address_returns [Op.Create 5] _ rfl 0 5 (by decide) (by decide)
      (by decide) [Op.Create 6] (by decide) _ rfl).2.2.1,
    rfl,
    (C8_weak_stays_invalid_until_address_returns [Op.Create 5] _ rfl 0 5 (by decide) (by decide)
      (by decide) [Op.Create 6] (by decide) _ rfl).2.2.2 (Op.Create 5) _ (by decide) rfl⟩

/-- C11: `Release()` on an exclusive or a shared handle that stores null leaves the handle
null and the whole process state (table, finalizer log, assertion count) as it was; and
`Release` is idempotent on every handle: a second `Release` changes nothing. -/
theorem C11_release_of_null_is_noop (s : State) (Data : Addr) :
    UniqueMemoryHandle.Release s 0 = (s, 0)
      ∧ UniqueMemoryHandle.Release (UniqueMemoryHandle.Release s Data).1
          (UniqueMemoryHandle.Release s Data).2 = UniqueMemoryHandle.Release s Data
      ∧ (∀ h : Nat, s.shared[h]? = some (some 0) →
          SharedMemoryHandle.Release s h = s
          ∧ SharedMemoryHandle.Get (SharedMemoryHandle.Release s h) h = 0)
      ∧ (∀ (g : Nat) (d : Addr), s.shared[g]? = some (some d) →
          SharedMemoryHandle.Release (SharedMemoryHandle.Release s g) g
            = SharedMemoryHandle.Release s g) := by
  have hnull : ∀ (t : State) (i : Nat), t.shared[i]? = some (some 0) →
      SharedMemoryHandle.Release t i = t := by
    intro t i hi
    have hget := SharedMemoryHandle.Get_of_slot hi
    have hset : t.shared.set i (some 0) = t.shared := by
      apply List.ext_getElem?
      intro j
      by_cases hij : i = j
      · subst hij
        rw [slot_set_self _ ⟨0, hi⟩, hi]
      · rw [List.getElem?_set_ne hij]
    simp only [SharedMemoryHandle.Release, SharedMemoryHandle.ReleaseResourseChecked, hget,
      ne_eq, not_true_eq_false, if_false, SharedMemoryHandle.setData, hset]
  refine ⟨UniqueMemoryHandle.Release_of_null s, ?_, ?_, ?_⟩
  · by_cases hD : Data = 0
    · subst hD
      simp [UniqueMemoryHandle.Release_of_null]
    · simp [UniqueMemoryHandle.Release_valid s hD, UniqueMemoryHandle.Release_of_null]
  · intro h hs
    have hrel := hnull s h hs
    refine ⟨hrel, ?_⟩
    rw [hrel]
    exact SharedMemoryHandle.Get_of_slot hs
  · intro g d hg
    apply hnull
    rw [SharedMemoryHandle.Release_shared]
    exact slot_set_self _ ⟨d, hg⟩

/-- C11 at concrete inputs: a null exclusive handle in the empty process, the owner of the
value at address 7 released twice, and a null shared handle next to the handle of the value
at address 7. -/
theorem C11_release_of_null_is_noop_witness :
    UniqueMemoryHandle.Release State.init 0 = (State.init, 0)
      ∧ UniqueMemoryHandle.Release (UniqueMemoryHandle.Release State.init 7).1
          (UniqueMemoryHandle.Release State.init 7).2 = UniqueMemoryHandle.Release State.init 7
      ∧ (SharedMemoryHandle.ctor_raw (SharedMemoryHandle.Create State.init 7).1 0).1.shared
          = [some 7, some 0]
      ∧ SharedMemoryHandle.Release
          (SharedMemoryHandle.ctor_raw (SharedMemoryHandle.Create State.init 7).1 0).1 1
        = (SharedMemoryHandle.ctor_raw (SharedMemoryHandle.Create State.init 7).1 0).1 :=
  ⟨(C11_release_of_null_is_noop State.init 7).1,
    (C11_release_of_null_is_noop State.init 7).2.1,
    by decide,
    ((C11_release_of_null_is_noop
      (SharedMemoryHandle.ctor_raw (SharedMemoryHandle.Create State.init 7).1 0).1 7).2.2.1
      1 (by decide)).1⟩

/-- C12, the code at the failing input: when `malloc` returns no block,
`MallocAllocator::Allocate` passes the null block to `zero_memory` before any check, so it has
no defined result, although `harz_new` and both `Create` functions would turn a null block
into a null, invalid handle and leave the table alone. -/
theorem C12_allocate_zeroes_before_null_check (s : State) (allocationsize : Nat) :
    MallocAllocator.Allocate 0 allocationsize = none
      ∧ harz_new s 0 = (s, 0)
      ∧ UniqueMemoryHandle.Create s 0 = (s, 0)
      ∧ UniqueMemoryHandle.IsValid (UniqueMemoryHandle.Create s 0).2 = false
      ∧ (SharedMemoryHandle.Create s 0).1.RefMap = s.RefMap
      ∧ SharedMemoryHandle.Get (SharedMemoryHandle.Create s 0).1 (SharedMemoryHandle.Create s 0).2
          = 0
      ∧ SharedMemoryHandle.IsValid (SharedMemoryHandle.Create s 0).1
          (SharedMemoryHandle.Create s 0).2 = false := by
  have hnew : harz_new s 0 = (s, 0) := by simp [harz_new]
  have hcreate : (SharedMemoryHandle.Create s 0).1 = SharedMemoryHandle.construct s := by
    simp only [SharedMemoryHandle.Create, SharedMemoryHandle.ctor_raw, hnew]
    exact SharedMemoryHandle.AcquireDataToHandle_noop (Or.inl rfl)
  have hidx : (SharedMemoryHandle.Create s 0).2 = s.shared.length := by
    simp [SharedMemoryHandle.Create, SharedMemoryHandle.ctor_raw, hnew]
  have hget : SharedMemoryHandle.Get (SharedMemoryHandle.Create s 0).1
      (SharedMemoryHandle.Create s 0).2 = 0 := by
    rw [hcreate, hidx]
    exact SharedMemoryHandle.Get_construct_new s
  refine ⟨?_, hnew, ?_, ?_, ?_, hget, ?_⟩
  · simp [MallocAllocator.Allocate, detailMemoryHandleImplementation.zero_memory]
  · simp [UniqueMemoryHandle.Create, UniqueMemoryHandle.ctor_raw, hnew,
      UniqueMemoryHandle.AcquireDataToHandle_null]
  · simp [UniqueMemoryHandle.Create, UniqueMemoryHandle.ctor_raw, hnew,
      UniqueMemoryHandle.AcquireDataToHandle_null, UniqueMemoryHandle.IsValid]
  · rw [hcreate]
    rfl
  · simp [SharedMemoryHandle.IsValid, hget]

/-- C14: `RetrieveResourse` returns the address the exclusive handle `A` stored and leaves `A`
null, without touching the process state.  Constructing `B` from `A` leaves the state as it
was, `A` null and `B` storing the address of `A`.  Move-assigning `A` to a distinct handle
`B` (which does not own the same value) leaves `A` null and `B` storing the address of `A`,
and finalizes exactly the value `B` owned before, once, also when `A` was null. -/
theorem C14_exclusive_transfer (s : State) (a b : Addr) (hex : a ≠ 0 → a ≠ b) :
    UniqueMemoryHandle.RetrieveResourse a = (a, 0)
      ∧ UniqueMemoryHandle.ctor_move s a = (s, a, 0)
      ∧ (UniqueMemoryHandle.assign_move s b a).2.1 = a
      ∧ (UniqueMemoryHandle.assign_move s b a).2.2 = 0
      ∧ (UniqueMemoryHandle.assign_move s b a).1.deleted
          = s.deleted ++ (if b = 0 then [] else [b])
      ∧ (a ≠ 0 → a ∉ (if b = 0 then [] else [b])) := by
  refine ⟨UniqueMemoryHandle.RetrieveResourse_eq a, UniqueMemoryHandle.ctor_move_eq s a, ?_⟩
  have hr := UniqueMemoryHandle.RetrieveResourse_eq a
  by_cases hb : b = 0
  · subst hb
    have hv : UniqueMemoryHandle.IsValid 0 = false := by simp [UniqueMemoryHandle.IsValid]
    simp only [UniqueMemoryHandle.assign_move, hv, hr, Bool.false_eq_true, if_false]
    by_cases ha : a = 0
    · subst ha
      simp [UniqueMemoryHandle.AcquireDataToHandle_null]
    · simp [UniqueMemoryHandle.AcquireDataToHandle_fresh s ha]
  · have hv : UniqueMemoryHandle.IsValid b = true := by simp [UniqueMemoryHandle.IsValid, hb]
    obtain ⟨hdel, -, -, -, -⟩ := UniqueMemoryHandle.harz_delete_fields s hb
    simp only [UniqueMemoryHandle.assign_move, hv, hr, if_true,
      UniqueMemoryHandle.Release_valid s hb]
    by_cases ha : a = 0
    · subst ha
      simp [UniqueMemoryHandle.AcquireDataToHandle_null, hdel, hb]
    · have hab := hex ha
      simp [UniqueMemoryHandle.AcquireDataToHandle_fresh _ ha, hdel, hb, hab]

/-- C14 at a concrete input: the owner of the value at 5 is move-assigned to the owner of the
value at 6. -/
theorem C14_exclusive_transfer_witness :
    ((5 : Addr) ≠ 0 → (5 : Addr) ≠ 6)
      ∧ (UniqueMemoryHandle.assign_move State.init 6 5).2.1 = 5
      ∧ (UniqueMemoryHandle.assign_move State.init 6 5).1.deleted
          = State.init.deleted ++ (if (6 : Addr) = 0 then [] else [6]) :=
  ⟨by decide, (C14_exclusive_transfer State.init 5 6 (by decide)).2.2.1,
    (C14_exclusive_transfer State.init 5 6 (by decide)).2.2.2.2.1⟩

/-- C15: `Reset(p)` on an exclusive handle that stores `d`: nothing changes when `p = d`; when
`p` is non-null and differs from `d`, the value at `d` (if `d` is non-null) is finalized
exactly once and the handle stores `p`; when `p` is null and `d` is not, the value at `d` is
finalized exactly once and the handle stores null. -/
theorem C15_exclusive_reset (s : State) (d p : Addr) :
    (p = d → UniqueMemoryHandle.Reset s d p = (s, d))
      ∧ (p ≠ 0 → p ≠ d → (UniqueMemoryHandle.Reset s d p).2 = p
          ∧ (UniqueMemoryHandle.Reset s d p).1.deleted
              = s.deleted ++ (if d = 0 then [] else [d]))
      ∧ (p = 0 → d ≠ 0 → (UniqueMemoryHandle.Reset s d p).2 = 0
          ∧ (UniqueMemoryHandle.Reset s d p).1.deleted = s.deleted ++ [d]) := by
  refine ⟨?_, ?_, ?_⟩
  · intro h
    simp [UniqueMemoryHandle.Reset, h]
  · intro hp hpd
    have hdp : d ≠ p := fun e => hpd e.symm
    simp only [UniqueMemoryHandle.Reset, hdp, hp, if_false]
    rw [UniqueMemoryHandle.AcquireDataToHandle_other s hp hdp]
    by_cases hd : d = 0
    · subst hd
      simp [UniqueMemoryHandle.Release_of_null]
    · obtain ⟨hdel, -, -, -, -⟩ := UniqueMemoryHandle.harz_delete_fields s hd
      simp [UniqueMemoryHandle.Release_valid s hd, hdel, hd]
  · intro hp hd
    subst hp
    obtain ⟨hdel, -, -, -, -⟩ := UniqueMemoryHandle.harz_delete_fields s hd
    simp [UniqueMemoryHandle.Reset, hd, UniqueMemoryHandle.Release_valid s hd, hdel]

/-- C16: `Reset(p)` with a non-null `p` on a shared handle `h` that stores `d` (null, or valid
with count `cd ≥ 1`).  When `p = d` nothing changes.  When `p ≠ d`, `h` stores `p` afterwards,
the count of `p` is its previous count plus 1 when it had an entry and 1 when it had none, the
ownership of `d` has been released once (count `cd - 1`, or entry erased and value finalized
once when `cd = 1`), and the entries of all other addresses are unchanged. -/
theorem C16_shared_reset_to_address (s : State) (h : Nat) (d p : Addr) (cd : Nat)
    (hs : s.shared[h]? = some (some d)) (hp : p ≠ 0)
    (hd : d = 0 ∨ (s.RefMap d = some cd ∧ 1 ≤ cd ∧ cd < RefCountModulus))
    (hcp : ∀ c, s.RefMap p = some c → c + 1 < RefCountModulus) :
    (p = d → SharedMemoryHandle.Reset s h p = s)
      ∧ (p ≠ d →
          (SharedMemoryHandle.Reset s h p).shared[h]? = some (some p)
          ∧ (∀ c, s.RefMap p = some c → (SharedMemoryHandle.Reset s h p).RefMap p = some (c + 1))
          ∧ (s.RefMap p = none → (SharedMemoryHandle.Reset s h p).RefMap p = some 1)
          ∧ (d = 0 → (SharedMemoryHandle.Reset s h p).deleted = s.deleted)
          ∧ (d ≠ 0 → 1 < cd → (SharedMemoryHandle.Reset s h p).RefMap d = some (cd - 1)
              ∧ (SharedMemoryHandle.Reset s h p).deleted = s.deleted)
          ∧ (d ≠ 0 → cd = 1 → (SharedMemoryHandle.Reset s h p).RefMap d = none
              ∧ (SharedMemoryHandle.Reset s h p).deleted = s.deleted ++ [d])
          ∧ ∀ b, b ≠ p → b ≠ d → (SharedMemoryHandle.Reset s h p).RefMap b = s.RefMap b) := by
  have hget : SharedMemoryHandle.Get s h = d := SharedMemoryHandle.Get_of_slot hs
  constructor
  · intro hpd
    simp [SharedMemoryHandle.Reset, hget, hpd]
  · intro hpd
    have hdp : d ≠ p := fun e => hpd e.symm
    have h0p : (0 : Addr) ≠ p := fun e => hp e.symm
    -- the state after the guarded release
    have hmid : ∃ s1 : State, SharedMemoryHandle.Reset s h p
          = SharedMemoryHandle.AcquireDataToHandle s1 h p
        ∧ s1.shared[h]? = some (some (if s.RefMap d = none then d else 0))
        ∧ ((d = 0 ∨ s.RefMap d = none) → s1.RefMap = s.RefMap ∧ s1.deleted = s.deleted)
        ∧ (d ≠ 0 → ∀ c, s.RefMap d = some c → s1 = SharedMemoryHandle.Release s h) := by
      by_cases hv : SharedMemoryHandle.IsValid s h = true
      · refine ⟨SharedMemoryHandle.Release s h, ?_, ?_, ?_, fun _ _ _ => rfl⟩
        · simp [SharedMemoryHandle.Reset, hget, hdp, hv]
        · have hsome : s.RefMap d ≠ none := by
            simp [SharedMemoryHandle.IsValid, hget, RefMapType.find] at hv
            intro e
            rw [e] at hv
            simp at hv
          rw [SharedMemoryHandle.Release_shared, slot_set_self _ ⟨d, hs⟩]
          simp [hsome]
        · intro hor
          simp [SharedMemoryHandle.IsValid, hget, RefMapType.find] at hv
          rcases hor with hor | hor
          · exact absurd hor hv.1
          · rw [hor] at hv
            simp at hv
      · refine ⟨s, ?_, ?_, fun _ => ⟨rfl, rfl⟩, ?_⟩
        · simp [SharedMemoryHandle.Reset, hget, hdp, hv]
        · by_cases hnone : s.RefMap d = none
          · simp [hnone, hs]
          · have hd0 : d = 0 := by
              by_contra hne
              apply hv
              cases hf : s.RefMap d with
              | none => exact absurd hf hnone
              | some c => simp [SharedMemoryHandle.IsValid, hget, RefMapType.find, hf, hne]
            simp [hnone, hs, hd0]
        · intro hne c hc
          exfalso
          apply hv
          simp [SharedMemoryHandle.IsValid, hget, RefMapType.find, hc, hne]
    obtain ⟨s1, hreset, hslot1, hsame, hrel⟩ := hmid
    -- in the cases of the claim the handle is null after the guarded release
    have hnull1 : SharedMemoryHandle.Get s1 h ≠ p := by
      rw [SharedMemoryHandle.Get_of_slot hslot1]
      split
      · exact hdp
      · exact h0p
    have hRef := SharedMemoryHandle.AcquireDataToHandle_RefMap (s := s1) (h := h) hp hnull1
    have hsh : (SharedMemoryHandle.Reset s h p).shared[h]? = some (some p) := by
      rw [hreset, SharedMemoryHandle.AcquireDataToHandle_shared,
        if_neg (not_or.mpr ⟨hp, hnull1⟩)]
      exact slot_set_self _ ⟨_, hslot1⟩
    have hdel : (SharedMemoryHandle.Reset s h p).deleted = s1.deleted := by
      rw [hreset, SharedMemoryHandle.AcquireDataToHandle_deleted]
    -- the entry of p before the acquisition is the one in s
    have hp1 : s1.RefMap p = s.RefMap p := by
      rcases hd with hd0 | ⟨hc, _, _⟩
      · rw [(hsame (Or.inl hd0)).1]
      · by_cases hdz : d = 0
        · rw [(hsame (Or.inl hdz)).1]
        · rw [hrel hdz cd hc]
          have hfr := (SharedMemoryHandle.Release_frame s h).1 p
          rw [hget] at hfr
          exact hfr hpd
    refine ⟨hsh, ?_, ?_, ?_, ?_, ?_, ?_⟩
    · intro c hc
      rw [hreset, hRef, hp1, hc]
      simp [Nat.mod_eq_of_lt (hcp c hc)]
    · intro hnone
      rw [hreset, hRef, hp1, hnone]
      simp
    · intro hd0
      rw [hdel, (hsame (Or.inl hd0)).2]
    · intro hdz hcd
      rcases hd with hd0 | ⟨hc, h1, hlt⟩
      · exact absurd hd0 hdz
      obtain ⟨e1, e2, -, -⟩ := SharedMemoryHandle.Release_counted hget hdz hc hlt
      have hne : cd ≠ 1 := by omega
      have hmod : (cd + (RefCountModulus - 1)) % RefCountModulus = cd - 1 := by
        unfold RefCountModulus at *
        omega
      refine ⟨?_, ?_⟩
      · rw [hreset, hRef, if_neg hdp, hrel hdz cd hc, e1]
        simp [hne, hmod]
      · rw [hdel, hrel hdz cd hc, e2]
        simp [hne]
    · intro hdz hcd
      rcases hd with hd0 | ⟨hc, h1, hlt⟩
      · exact absurd hd0 hdz
      obtain ⟨e1, e2, -, -⟩ := SharedMemoryHandle.Release_counted hget hdz hc hlt
      refine ⟨?_, ?_⟩
      · rw [hreset, hRef, if_neg hdp, hrel hdz cd hc, e1]
        simp [hcd]
      · rw [hdel, hrel hdz cd hc, e2]
        simp [hcd]
    · intro b hbp hbd
      rw [hreset, hRef, if_neg hbp]
      rcases hd with hd0 | ⟨hc, _, _⟩
      · rw [(hsame (Or.inl hd0)).1]
      · by_cases hdz : d = 0
        · rw [(hsame (Or.inl hdz)).1]
        · rw [hrel hdz cd hc]
          have hfr := (SharedMemoryHandle.Release_frame s h).1 b
          rw [hget] at hfr
          exact hfr hbd

/-- C16 at a concrete input: the only handle of the value at 7 is reset to the raw address
8. -/
theorem C16_shared_reset_to_address_witness :
    (SharedMemoryHandle.Create State.init 7).1.shared[0]? = some (some 7)
      ∧ (SharedMemoryHandle.Reset (SharedMemoryHandle.Create State.init 7).1 0 8).shared[0]?
          = some (some 8)
      ∧ (SharedMemoryHandle.Reset (SharedMemoryHandle.Create State.init 7).1 0 8).RefMap 8
          = some 1 :=
  ⟨by decide,
    ((C16_shared_reset_to_address (SharedMemoryHandle.Create State.init 7).1 0 7 8 1
      (by decide) (by decide) (Or.inr ⟨by decide, by decide, by decide⟩)
      (fun c hc => by simp [SharedMemoryHandle.Create, SharedMemoryHandle.ctor_raw, harz_new,
        SharedMemoryHandle.AcquireDataToHandle, SharedMemoryHandle.construct,
        SharedMemoryHandle.Get, SharedMemoryHandle.setData, RefMapType.find, RefMapType.insert,
        State.init] at hc)).2 (by decide)).1,
    ((C16_shared_reset_to_address (SharedMemoryHandle.Create State.init 7).1 0 7 8 1
      (by decide) (by decide) (Or.inr ⟨by decide, by decide, by decide⟩)
      (fun c hc => by simp [SharedMemoryHandle.Create, SharedMemoryHandle.ctor_raw, harz_new,
        SharedMemoryHandle.AcquireDataToHandle, SharedMemoryHandle.construct,
        SharedMemoryHandle.Get, SharedMemoryHandle.setData, RefMapType.find, RefMapType.insert,
        State.init] at hc)).2 (by decide)).2.2.1 (by decide)⟩

/-- C17, the code at the failing input: `Reset(UniqueMemoryHandle<T>)` reports the
ownership-violation error exactly when the handle and the argument store equal addresses, and
null equals null: resetting a null handle from a null handle reports the error. -/
theorem C17_reset_from_handle_reports_on_equal_data (s : State) (Data ArgumentData : Addr) :
    ((UniqueMemoryHandle.Reset_handle s Data ArgumentData).1.asserts = s.asserts + 1
        ↔ Data = ArgumentData)
      ∧ ((UniqueMemoryHandle.Reset_handle s Data ArgumentData).1.asserts = s.asserts
        ↔ Data ≠ ArgumentData)
      ∧ (UniqueMemoryHandle.Reset_handle s 0 0).1.asserts = s.asserts + 1
      ∧ (UniqueMemoryHandle.Reset_handle s 0 0).2.1 = 0 := by
  have hgen : ∀ d o : Addr, (UniqueMemoryHandle.Reset_handle s d o).1.asserts
      = if d = o then s.asserts + 1 else s.asserts := by
    intro d o
    unfold UniqueMemoryHandle.Reset_handle
    simp only [UniqueMemoryHandle.ctor_move_eq]
    by_cases hdo : d = o
    · simp only [hdo, if_true]
      rw [UniqueMemoryHandle.dtor_asserts]
    · simp only [hdo, if_false]
      split
      · rw [UniqueMemoryHandle.dtor_asserts, UniqueMemoryHandle.Release_asserts]
      · rw [UniqueMemoryHandle.dtor_asserts, UniqueMemoryHandle.Acquire_keeps_asserts]
  refine ⟨?_, ?_, ?_, ?_⟩
  · rw [hgen]
    by_cases hdo : Data = ArgumentData <;> simp [hdo]
  · rw [hgen]
    by_cases hdo : Data = ArgumentData <;> simp [hdo]
  · rw [hgen]
    simp
  · simp [UniqueMemoryHandle.Reset_handle, UniqueMemoryHandle.ctor_move_eq]

/-- C19: in every state reached from the empty table, no entry has count 0, so a weak handle
is valid exactly when its address is non-null and has an entry; in particular a weak handle
and a shared handle that store the same address report the same validity. -/
theorem C19_weak_and_shared_validity_agree (ops : List Op) (s : State)
    (hrun : run State.init ops = some s) (h : Nat) (a : Addr)
    (hs : s.shared[h]? = some (some a)) :
    WeakMemoryHandle.IsValid s a = SharedMemoryHandle.IsValid s h
      ∧ (∀ b c, s.RefMap b = some c → 0 < c)
      ∧ (∀ b, WeakMemoryHandle.IsValid s b = (decide (b ≠ 0) && (s.RefMap b).isSome)) := by
  have hinv := run_preserves_inv ops init_inv hrun
  have hpos : ∀ b c, s.RefMap b = some c → 0 < c := by
    intro b c hc
    have htb := hinv.1 b
    rw [hc] at htb
    by_cases hz : b = 0 ∨ holders b s.shared = 0
    · simp [hz] at htb
    · simp only [hz, if_false, Option.some.injEq] at htb
      have : holders b s.shared ≠ 0 := fun e => hz (Or.inr e)
      omega
  have hweak : ∀ b, WeakMemoryHandle.IsValid s b = (decide (b ≠ 0) && (s.RefMap b).isSome) := by
    intro b
    unfold WeakMemoryHandle.IsValid WeakMemoryHandle.CheckRefCount RefMapType.find
    cases hf : s.RefMap b with
    | none => simp
    | some c =>
      have := hpos b c hf
      simp [this]
  refine ⟨?_, hpos, hweak⟩
  rw [hweak, SharedMemoryHandle.IsValid, SharedMemoryHandle.Get_of_slot hs, RefMapType.find]

/-- C19 at a concrete run: the value at address 5, its handle copied once. -/
theorem C19_weak_and_shared_validity_agree_witness :
    ∃ s, run State.init [Op.Create 5, Op.Copy 0] = some s
      ∧ s.shared[1]? = some (some 5)
      ∧ WeakMemoryHandle.IsValid s 5 = SharedMemoryHandle.IsValid s 1 :=
  ⟨_, rfl, by decide,
    (C19_weak_and_shared_validity_agree [Op.Create 5, Op.Copy 0] _ rfl 1 5 (by decide)).1⟩

/-- C13: in every state reached by exclusive handle operations that take no raw address from
outside (`Create`, the two transfer constructors, move assignment, `Reset` from a handle,
`ResetNew`, `Release`, destruction), no two distinct live exclusive handles store the same
non-null address, and every non-null address stored by an exclusive handle is that of an
allocated value that has not been finalized. -/
theorem C13_exclusive_handles_own_distinct_live_values (ops : List UniqueOp) (u : UniqueState)
    (hrun : runUnique UniqueState.init ops = some u) :
    (∀ (i j : Nat) (a : Addr), i ≠ j → u.unique[i]? = some (some a) →
        u.unique[j]? = some (some a) → a = 0)
      ∧ (∀ (i : Nat) (a : Addr), u.unique[i]? = some (some a) → a ≠ 0 → a ∈ u.mem.live) := by
  have hinit : Exclusive UniqueState.init.unique UniqueState.init.mem.live := by
    intro a _
    simp [UniqueState.init, holders]
  have hex := runUnique_preserves_exclusive ops hinit hrun
  refine ⟨?_, ?_⟩
  · intro i j a hij hi hj
    by_contra ha
    have h2 := two_slots_two_holders hij hi hj
    have h1 := (hex a ha).1
    omega
  · intro i a hi ha
    exact (hex a ha).2 (holders_pos a u.unique i hi)

/-- C13 at a concrete run: a value is created at address 5, its owner is moved from, and a
second value is created at address 6. -/
theorem C13_exclusive_handles_own_distinct_live_values_witness :
    ∃ u, runUnique UniqueState.init
          [UniqueOp.Create 5, UniqueOp.Move 0, UniqueOp.Create 6] = some u
      ∧ u.unique = [some 0, some 5, some 6]
      ∧ (∀ (i j : Nat) (a : Addr), i ≠ j → u.unique[i]? = some (some a) →
          u.unique[j]? = some (some a) → a = 0) :=
  ⟨_, rfl, by decide,
    (C13_exclusive_handles_own_distinct_live_values
      [UniqueOp.Create 5, UniqueOp.Move 0, UniqueOp.Create 6] _ rfl).1⟩

/-- C20, the code at the failing input: two shared handles on address 5 (count 2) released by
two threads; when both decrements are scheduled before both reads, both threads read the
count 0, both erase and both finalize: the value at address 5 is finalized twice. -/
theorem C20_two_releasers_both_see_zero :
    (SharedMemoryHandle.ctor_copy (SharedMemoryHandle.Create State.init 5).1 0).1.RefMap 5
        = some 2
      ∧ (Interlocked.runSchedule
          ((SharedMemoryHandle.ctor_copy (SharedMemoryHandle.Create State.init 5).1 0).1,
            Interlocked.Releaser.start 5, Interlocked.Releaser.start 5)
          [false, true, false, true, false, true, false, true, false, true, false, true]).1.deleted
        = [5, 5]
      ∧ (Interlocked.runSchedule
          ((SharedMemoryHandle.ctor_copy (SharedMemoryHandle.Create State.init 5).1 0).1,
            Interlocked.Releaser.start 5, Interlocked.Releaser.start 5)
          [false, true, false, true, false, true, false, true, false, true, false, true]).2.1.sawBelowOne
        = true
      ∧ (Interlocked.runSchedule
          ((SharedMemoryHandle.ctor_copy (SharedMemoryHandle.Create State.init 5).1 0).1,
            Interlocked.Releaser.start 5, Interlocked.Releaser.start 5)
          [false, true, false, true, false, true, false, true, false, true, false, true]).2.2.sawBelowOne
        = true
      ∧ (Interlocked.runSchedule
          ((SharedMemoryHandle.ctor_copy (SharedMemoryHandle.Create State.init 5).1 0).1,
            Interlocked.Releaser.start 5, Interlocked.Releaser.start 5)
          [false, true, false, true, false, true, false, true, false, true, false, true]).2.1.pc
        = Interlocked.Pc.Done
      ∧ (Interlocked.runSchedule
          ((SharedMemoryHandle.ctor_copy (SharedMemoryHandle.Create State.init 5).1 0).1,
            Interlocked.Releaser.start 5, Interlocked.Releaser.start 5)
          [false, true, false, true, false, true, false, true, false, true, false, true]).2.2.pc
        = Interlocked.Pc.Done := by
  decide

end harz
